import Mathlib

/-!
Shallow embedding of the signal-resolution engine of
`src/circuit_simulator.py` (classes `Wire`, `Node`, `Transistor`, `Clock`,
`Circuit` and the methods `get_state_at_point`, `build_connectivity_graph`,
`update_circuit_state`, `propagate_signals`), together with theorems
checking the natural-language specification against this embedding.

Modelling conventions:
* grid coordinates are integer pairs (`Point := Int × Int`); the source
  stores them as Python number tuples that are exact grid multiples;
* Python sets of points become `Finset Point` (Python compares the
  `on_points` set by extensional set equality, as `Finset` equality does);
* the in-place mutation of `update_circuit_state` becomes explicit state
  passing: every function returns the new `Circuit`;
* the `while True` loop with its `if iter > 10000: break` guard becomes
  structural recursion on the remaining allowance `10001 - iter`
  (the guard admits exactly 10001 executions of the loop body);
* the two diagnostic `print` calls at the oscillation break and at the
  iteration-cap break become the `SolveStatus` result component
  (`oscillating` / `iterationLimit`; a silent exit is `converged`).
-/

namespace CircuitSim

abbrev Point := Int × Int

/-- `GRID_SPACING = 100` (module constant of `circuit_simulator.py`). -/
def GRID_SPACING : Int := 100

inductive NodeType where
  | input
  | output
deriving DecidableEq, Repr

inductive TransistorType where
  | nType
  | pType
deriving DecidableEq, Repr

inductive TransOrient where
  | horizontal
  | vertical
deriving DecidableEq, Repr

/-- `Wire.__init__`: stored endpoints and the cached boolean `state`. -/
structure Wire where
  start_point : Point
  end_point : Point
  state : Bool
deriving DecidableEq, Repr

/-- `Node.__init__`: position, kind (`'input'`/`'output'`) and cached `state`. -/
structure Node where
  position : Point
  node_type : NodeType
  state : Bool
deriving DecidableEq, Repr

/-- `Transistor.__init__`: gate position, cached `state`, kind and axis. -/
structure Transistor where
  position : Point
  state : Bool
  transistor_type : TransistorType
  orientation : TransOrient
deriving DecidableEq, Repr

/-- `Clock.__init__`: position, `state`, `frequency`, `frame_counter`. -/
structure Clock where
  position : Point
  state : Bool
  frequency : Int
  frame_counter : Int
deriving DecidableEq, Repr

/-- The mutable fields of `Circuit` that the solver reads and writes:
the four component collections and the `on_points` set
(initialised to the empty collection by `Circuit.__init__`). -/
@[ext]
structure Circuit where
  nodes : List Node
  wires : List Wire
  transistors : List Transistor
  clocks : List Clock
  on_points : Finset Point
deriving DecidableEq

/-- `Clock.update`: increment `frame_counter`; once it reaches
`frequency`, toggle `state` and reset the counter. -/
def Clock.update (k : Clock) : Clock :=
  if k.frame_counter + 1 ≥ k.frequency then
    { k with state := !k.state, frame_counter := 0 }
  else
    { k with frame_counter := k.frame_counter + 1 }

/-- `Transistor` source terminal, as computed inside
`build_connectivity_graph`: one `GRID_SPACING` before the gate along the
orientation axis. -/
def Transistor.sourcePoint (t : Transistor) : Point :=
  match t.orientation with
  | .horizontal => (t.position.1 - GRID_SPACING, t.position.2)
  | .vertical => (t.position.1, t.position.2 - GRID_SPACING)

/-- `Transistor` drain terminal: one `GRID_SPACING` after the gate along
the orientation axis. -/
def Transistor.drainPoint (t : Transistor) : Point :=
  match t.orientation with
  | .horizontal => (t.position.1 + GRID_SPACING, t.position.2)
  | .vertical => (t.position.1, t.position.2 + GRID_SPACING)

/-- The conduction decision of `build_connectivity_graph`, as a function of
the energized lookup `P` (the code reads `self.on_points` through
`get_state_at_point`): an n-type conducts iff its gate point is in `P`,
a p-type iff it is not. -/
def conductingAt (t : Transistor) (P : Finset Point) : Bool :=
  match t.transistor_type with
  | .nType => decide (t.position ∈ P)
  | .pType => !decide (t.position ∈ P)

/-- A connectivity graph is the list of directed adjacency entries in the
order the Python code appends them (`graph[a].append(b)` becomes the pair
`(a, b)`).  Keys merely touched by the code (node and clock positions,
which receive an empty adjacency list) carry no entries, exactly as an
empty `defaultdict` list does. -/
abbrev Graph := List (Point × Point)

/-- The wire part of `build_connectivity_graph`: each wire contributes its
edge in both directions. -/
def wireEdges (ws : List Wire) : Graph :=
  ws.flatMap fun w => [(w.start_point, w.end_point), (w.end_point, w.start_point)]

/-- The transistor part of `build_connectivity_graph`: each conducting
transistor contributes its source–drain edge in both directions. -/
def transistorEdges (ts : List Transistor) (P : Finset Point) : Graph :=
  ts.flatMap fun t =>
    if conductingAt t P then
      [(t.sourcePoint, t.drainPoint), (t.drainPoint, t.sourcePoint)]
    else []

/-- `build_connectivity_graph` with the energized lookup made explicit. -/
def buildConnectivityGraphP (c : Circuit) (P : Finset Point) : Graph :=
  wireEdges c.wires ++ transistorEdges c.transistors P

/-- `Circuit.build_connectivity_graph`: conduction is evaluated against the
current `self.on_points`. -/
def buildConnectivityGraph (c : Circuit) : Graph :=
  buildConnectivityGraphP c c.on_points

/-- The adjacency list of a point: the targets of its entries, in
insertion order (`graph[p]`, with a missing key reading as `[]`). -/
def adj (g : Graph) (p : Point) : List Point :=
  (g.filter fun e => decide (e.1 = p)).map (·.2)

/-- One neighbour inspection of the BFS inner loop of
`propagate_signals`: an unvisited neighbour is marked visited and
appended to the queue. -/
def bfsStep (vq : Finset Point × List Point) (n : Point) : Finset Point × List Point :=
  if n ∈ vq.1 then vq else (insert n vq.1, vq.2 ++ [n])

/-- The BFS loop of `propagate_signals`.  The Python loop runs until the
queue empties; each pass pops the front of the queue and folds
`bfsStep` over its adjacency list.  The `fuel` argument is an upper
bound on the number of pops, which the caller chooses large enough
(every pop was once an enqueue, and there are at most
`|sources| + |edges|` enqueues). -/
def bfsAux (g : Graph) : Nat → List Point → Finset Point → Finset Point
  | _, [], visited => visited
  | 0, _ :: _, visited => visited
  | fuel + 1, current :: rest, visited =>
      let r := (adj g current).foldl bfsStep (visited, rest)
      bfsAux g fuel r.2 r.1

/-- `Circuit.propagate_signals(graph, input_nodes)`: BFS from the source
list, with the sources pre-inserted into the visited set. -/
def propagateSignals (g : Graph) (input_nodes : List Point) : Finset Point :=
  bfsAux g (input_nodes.length + g.length) input_nodes input_nodes.toFinset

/-- The source list rebuilt by every iteration of `update_circuit_state`:
positions of ON input nodes, then positions of ON clocks. -/
def inputPoints (c : Circuit) : List Point :=
  ((c.nodes.filter fun n => decide (n.node_type = .input) && n.state).map (·.position))
    ++ ((c.clocks.filter (·.state)).map (·.position))

/-- One graph-build-and-propagate pass as a function of the energized
lookup `P` used for transistor conduction (the loop body always passes
the current `self.on_points` for `P`). -/
def energizeF (c : Circuit) (P : Finset Point) : Finset Point :=
  propagateSignals (buildConnectivityGraphP c P) (inputPoints c)

/-- The tuple `(transistor.state for transistor in self.transistors)`. -/
def transTuple (c : Circuit) : List Bool :=
  c.transistors.map (·.state)

/-- The conduction predicate of every transistor, evaluated at `P`. -/
def predTuple (c : Circuit) (P : Finset Point) : List Bool :=
  c.transistors.map fun t => conductingAt t P

/-- The comparison signature `current_states`: the energized set paired
with the transistor state tuple. -/
abbrev Sig := Finset Point × List Bool

/-- The start of each solver iteration: rebuild the graph from the current
`self.on_points`, propagate, store the result into `on_points`, and form
`current_states` (which reads the transistor states from *before* this
iteration's updates). -/
def stepBody (c : Circuit) : Circuit × Sig :=
  let P := energizeF c c.on_points
  ({ c with on_points := P }, (P, transTuple c))

/-- The state updates performed at the end of a non-breaking iteration:
wire `state` from its endpoints, output-node `state` from its position,
transistor `state` from the conduction predicate — all against the
just-computed `self.on_points`. -/
def updateStates (c : Circuit) : Circuit :=
  { c with
    wires := c.wires.map fun w =>
      { w with state := decide (w.start_point ∈ c.on_points) || decide (w.end_point ∈ c.on_points) },
    nodes := c.nodes.map fun n =>
      if n.node_type = .output then { n with state := decide (n.position ∈ c.on_points) } else n,
    transistors := c.transistors.map fun t => { t with state := conductingAt t c.on_points } }

/-- How a solver run ended.  The code signals the two abnormal exits by
printing a diagnostic line (`"CIRCUIT OSSCILATION DETECTED!"` at the
two-cycle break, `"SOLVING CIRCUIT TOOK TOO LONG"` at the iteration cap)
and is silent on the convergence break; this type records which of the
three exits fired. -/
inductive SolveStatus where
  | converged
  | oscillating
  | iterationLimit
deriving DecidableEq, Repr

/-- The `while True` solve loop of `update_circuit_state`.  The argument
counts the loop-body executions still admitted by the `iter > 10000`
guard (so the top-level call passes `10001`); when it reaches zero the
code breaks with the iteration-limit diagnostic, leaving the state as
the last completed iteration wrote it.  A body first runs `stepBody`;
if `current_states` equals `previous_previous_states` it breaks with the
oscillation diagnostic, if it equals `previous_states` it breaks
silently, and otherwise it shifts the history, applies `updateStates`
and continues. -/
def solveLoop : Nat → Circuit → Option Sig → Option Sig → Circuit × SolveStatus
  | 0, c, _, _ => (c, .iterationLimit)
  | fuel + 1, c, ps, pps =>
      if some (stepBody c).2 = pps then ((stepBody c).1, .oscillating)
      else if some (stepBody c).2 = ps then ((stepBody c).1, .converged)
      else solveLoop fuel (updateStates (stepBody c).1) (some (stepBody c).2) ps

/-- The number of loop-body executions the solve loop performs, under the
same recursion scheme as `solveLoop`. -/
def countIter : Nat → Circuit → Option Sig → Option Sig → Nat
  | 0, _, _, _ => 0
  | fuel + 1, c, ps, pps =>
      if some (stepBody c).2 = pps then 1
      else if some (stepBody c).2 = ps then 1
      else 1 + countIter fuel (updateStates (stepBody c).1) (some (stepBody c).2) ps

/-- The post-loop refresh of `update_circuit_state`: wire and output-node
states are recomputed from the final `on_points`; transistor states are
*not* touched here. -/
def finalRefresh (c : Circuit) : Circuit :=
  { c with
    wires := c.wires.map fun w =>
      { w with state := decide (w.start_point ∈ c.on_points) || decide (w.end_point ∈ c.on_points) },
    nodes := c.nodes.map fun n =>
      if n.node_type = .output then { n with state := decide (n.position ∈ c.on_points) } else n }

/-- The clock advancement at the top of `update_circuit_state`. -/
def tickClocks (c : Circuit) : Circuit :=
  { c with clocks := c.clocks.map Clock.update }

/-- `Circuit.update_circuit_state`: advance clocks, run the solve loop
(at most 10001 bodies), then refresh wire and output-node states. -/
def updateCircuitState (c : Circuit) : Circuit × SolveStatus :=
  let r := solveLoop 10001 (tickClocks c) none none
  (finalRefresh r.1, r.2)

/-- The number of solve-loop iterations a call to `update_circuit_state`
performs. -/
def tickIterations (c : Circuit) : Nat :=
  countIter 10001 (tickClocks c) none none

/-- Reachability along the stored adjacency entries: the transitive
closure of one-step adjacency starting from the source list. -/
inductive Reach (g : Graph) (srcs : List Point) : Point → Prop
  | source {p : Point} : p ∈ srcs → Reach g srcs p
  | step {p q : Point} : Reach g srcs p → q ∈ adj g p → Reach g srcs q

/-- Reachability when every stored entry is read as an undirected edge —
this follows the claim's words ("reachable from the sources by undirected
graph traversal"), for comparison with what `propagate_signals` computes. -/
inductive ReachUndirected (g : Graph) (srcs : List Point) : Point → Prop
  | source {p : Point} : p ∈ srcs → ReachUndirected g srcs p
  | step {p q : Point} : ReachUndirected g srcs p → (q ∈ adj g p ∨ p ∈ adj g q) →
      ReachUndirected g srcs q

/-- All entry targets of a graph; every point the BFS ever inserts after
initialisation is among them. -/
def targets (g : Graph) : List Point := g.map (·.2)

/-- A one-entry adjacency mapping whose only entry points from `(1, 0)`
to `(0, 0)`: under undirected reading `(1, 0)` is reachable from the
source `(0, 0)`, but the BFS follows entries forwards only. -/
def asymG : Graph := [(((1 : Int), (0 : Int)), ((0 : Int), (0 : Int)))]

/-- The source list `[(0, 0)]` used with `asymG`. -/
def asymSrcs : List Point := [((0 : Int), (0 : Int))]

/-- A one-clock circuit used to witness `claim_C8`. -/
def clkC : Circuit := ⟨[], [], [], [⟨((0 : Int), (0 : Int)), false, 2, 0⟩], ∅⟩

/-- The immutable data of a wire: its endpoints. -/
def wireFrame (w : Wire) : Point × Point := (w.start_point, w.end_point)

/-- The data of a node the solver must not change: position, kind, and —
for input nodes — the state. -/
def nodeFrame (n : Node) : Point × NodeType × Option Bool :=
  (n.position, n.node_type, if n.node_type = .input then some n.state else none)

/-- The immutable data of a transistor: position, kind, axis. -/
def transFrame (t : Transistor) : Point × TransistorType × TransOrient :=
  (t.position, t.transistor_type, t.orientation)

/-- The immutable data of a clock: position and frequency. -/
def clockFrame (k : Clock) : Point × Int := (k.position, k.frequency)

/-- The tuple of all data `update_circuit_state` must leave unchanged. -/
def frames (c : Circuit) :
    List (Point × Point) × List (Point × NodeType × Option Bool) ×
      List (Point × TransistorType × TransOrient) × List (Point × Int) :=
  (c.wires.map wireFrame, c.nodes.map nodeFrame,
    c.transistors.map transFrame, c.clocks.map clockFrame)

/-- A feedback inverter: input node ON at `(-100, 0)` (the p-type's
source terminal), a wire from the drain `(100, 0)` back to the gate
`(0, 0)`, and a horizontal p-type transistor at `(0, 0)`.  Its energized
set alternates between `{(-100,0), (100,0), (0,0)}` and `{(-100,0)}`,
so the solve loop exits through the oscillation break. -/
def oscC : Circuit :=
  ⟨[⟨((-100 : Int), (0 : Int)), .input, true⟩],
   [⟨((100 : Int), (0 : Int)), ((0 : Int), (0 : Int)), false⟩],
   [⟨((0 : Int), (0 : Int)), true, .pType, .horizontal⟩],
   [], ∅⟩

/-- An input node held ON directly on the gate of an n-type transistor:
after one converged tick the gate point stays in `on_points`, so the
next tick's first graph build sees the n-type as conducting. -/
def gateC : Circuit :=
  ⟨[⟨((0 : Int), (0 : Int)), .input, true⟩],
   [],
   [⟨((0 : Int), (0 : Int)), false, .nType, .horizontal⟩],
   [], ∅⟩

/-- An ON input at `(0, 0)` wired to an output node at `(100, 0)`:
a minimal circuit whose tick converges with both points energized. -/
def wireC : Circuit :=
  ⟨[⟨((0 : Int), (0 : Int)), .input, true⟩,
    ⟨((100 : Int), (0 : Int)), .output, false⟩],
   [⟨((0 : Int), (0 : Int)), ((100 : Int), (0 : Int)), false⟩],
   [], [], ∅⟩

/-- A three-stage ring (inverter, buffer, inverter) driven by one ON
input node: stage `a` is a p-type at `(0, 0)` gated by stage `c`'s
output, stage `b` an n-type at `(0, 200)` gated by `a`'s output, stage
`c` a p-type at `(0, 400)` gated by `b`'s output; all three source
terminals are wired to the input at `(-300, 200)`.  The induced update
map is `(a, b, c) ↦ (¬c, a, ¬b)`, whose orbit from the cold start has
period 3 — never equal to the previous or the one-before-previous
signature, so the solve loop always runs to the iteration cap. -/
def ringCirc : Circuit :=
  ⟨[⟨((-300 : Int), (200 : Int)), .input, true⟩],
   [⟨((-300 : Int), (200 : Int)), ((-100 : Int), (0 : Int)), false⟩,
    ⟨((-300 : Int), (200 : Int)), ((-100 : Int), (200 : Int)), false⟩,
    ⟨((-300 : Int), (200 : Int)), ((-100 : Int), (400 : Int)), false⟩,
    ⟨((100 : Int), (0 : Int)), ((0 : Int), (200 : Int)), false⟩,
    ⟨((100 : Int), (200 : Int)), ((0 : Int), (400 : Int)), false⟩,
    ⟨((100 : Int), (400 : Int)), ((0 : Int), (0 : Int)), false⟩],
   [⟨((0 : Int), (0 : Int)), true, .pType, .horizontal⟩,
    ⟨((0 : Int), (200 : Int)), false, .nType, .horizontal⟩,
    ⟨((0 : Int), (400 : Int)), true, .pType, .horizontal⟩],
   [], ∅⟩

/-- Energized set of the ring in phase `(1, 0, 1)`: the source net plus
the `a` and `c` stage nets. -/
def rp1 : Finset Point :=
  {((-300 : Int), (200 : Int)), ((-100 : Int), (0 : Int)),
   ((-100 : Int), (200 : Int)), ((-100 : Int), (400 : Int)),
   ((0 : Int), (0 : Int)), ((0 : Int), (200 : Int)),
   ((100 : Int), (0 : Int)), ((100 : Int), (400 : Int))}

/-- Energized set of the ring in phase `(0, 1, 1)`. -/
def rp2 : Finset Point :=
  {((-300 : Int), (200 : Int)), ((-100 : Int), (0 : Int)),
   ((-100 : Int), (200 : Int)), ((-100 : Int), (400 : Int)),
   ((0 : Int), (0 : Int)), ((0 : Int), (400 : Int)),
   ((100 : Int), (200 : Int)), ((100 : Int), (400 : Int))}

/-- Energized set of the ring in phase `(0, 0, 0)`: the source net only. -/
def rp3 : Finset Point :=
  {((-300 : Int), (200 : Int)), ((-100 : Int), (0 : Int)),
   ((-100 : Int), (200 : Int)), ((-100 : Int), (400 : Int))}

/-- Loop signature produced by a ring iteration that lands in `rp1`. -/
def sigA : Sig := (rp1, [true, false, true])

/-- Loop signature produced by a ring iteration that lands in `rp2`. -/
def sigB : Sig := (rp2, [false, true, true])

/-- Loop signature produced by a ring iteration that lands in `rp3`. -/
def sigC : Sig := (rp3, [false, false, false])

/-- Ring circuit state entering the second loop body of a cold tick. -/
def rs1c : Circuit :=
  ⟨[⟨((-300 : Int), (200 : Int)), .input, true⟩],
   [⟨((-300 : Int), (200 : Int)), ((-100 : Int), (0 : Int)), true⟩,
    ⟨((-300 : Int), (200 : Int)), ((-100 : Int), (200 : Int)), true⟩,
    ⟨((-300 : Int), (200 : Int)), ((-100 : Int), (400 : Int)), true⟩,
    ⟨((100 : Int), (0 : Int)), ((0 : Int), (200 : Int)), true⟩,
    ⟨((100 : Int), (200 : Int)), ((0 : Int), (400 : Int)), false⟩,
    ⟨((100 : Int), (400 : Int)), ((0 : Int), (0 : Int)), true⟩],
   [⟨((0 : Int), (0 : Int)), false, .pType, .horizontal⟩,
    ⟨((0 : Int), (200 : Int)), true, .nType, .horizontal⟩,
    ⟨((0 : Int), (400 : Int)), true, .pType, .horizontal⟩],
   [], rp1⟩

/-- Ring circuit state with `on_points = rp2`; it is a fixed point of
the three-iteration cycle, and also the final circuit of a cold tick
(the post-loop refresh leaves it unchanged). -/
def rs2c : Circuit :=
  ⟨[⟨((-300 : Int), (200 : Int)), .input, true⟩],
   [⟨((-300 : Int), (200 : Int)), ((-100 : Int), (0 : Int)), true⟩,
    ⟨((-300 : Int), (200 : Int)), ((-100 : Int), (200 : Int)), true⟩,
    ⟨((-300 : Int), (200 : Int)), ((-100 : Int), (400 : Int)), true⟩,
    ⟨((100 : Int), (0 : Int)), ((0 : Int), (200 : Int)), false⟩,
    ⟨((100 : Int), (200 : Int)), ((0 : Int), (400 : Int)), true⟩,
    ⟨((100 : Int), (400 : Int)), ((0 : Int), (0 : Int)), true⟩],
   [⟨((0 : Int), (0 : Int)), false, .pType, .horizontal⟩,
    ⟨((0 : Int), (200 : Int)), false, .nType, .horizontal⟩,
    ⟨((0 : Int), (400 : Int)), false, .pType, .horizontal⟩],
   [], rp2⟩

/-- Ring circuit state with `on_points = rp3`. -/
def rs3c : Circuit :=
  ⟨[⟨((-300 : Int), (200 : Int)), .input, true⟩],
   [⟨((-300 : Int), (200 : Int)), ((-100 : Int), (0 : Int)), true⟩,
    ⟨((-300 : Int), (200 : Int)), ((-100 : Int), (200 : Int)), true⟩,
    ⟨((-300 : Int), (200 : Int)), ((-100 : Int), (400 : Int)), true⟩,
    ⟨((100 : Int), (0 : Int)), ((0 : Int), (200 : Int)), false⟩,
    ⟨((100 : Int), (200 : Int)), ((0 : Int), (400 : Int)), false⟩,
    ⟨((100 : Int), (400 : Int)), ((0 : Int), (0 : Int)), false⟩],
   [⟨((0 : Int), (0 : Int)), true, .pType, .horizontal⟩,
    ⟨((0 : Int), (200 : Int)), false, .nType, .horizontal⟩,
    ⟨((0 : Int), (400 : Int)), true, .pType, .horizontal⟩],
   [], rp3⟩

/-- Ring circuit state with `on_points = rp1` inside the cycle; it is
also the final circuit of the second tick. -/
def rs4c : Circuit :=
  ⟨[⟨((-300 : Int), (200 : Int)), .input, true⟩],
   [⟨((-300 : Int), (200 : Int)), ((-100 : Int), (0 : Int)), true⟩,
    ⟨((-300 : Int), (200 : Int)), ((-100 : Int), (200 : Int)), true⟩,
    ⟨((-300 : Int), (200 : Int)), ((-100 : Int), (400 : Int)), true⟩,
    ⟨((100 : Int), (0 : Int)), ((0 : Int), (200 : Int)), true⟩,
    ⟨((100 : Int), (200 : Int)), ((0 : Int), (400 : Int)), false⟩,
    ⟨((100 : Int), (400 : Int)), ((0 : Int), (0 : Int)), true⟩],
   [⟨((0 : Int), (0 : Int)), false, .pType, .horizontal⟩,
    ⟨((0 : Int), (200 : Int)), true, .nType, .horizontal⟩,
    ⟨((0 : Int), (400 : Int)), true, .pType, .horizontal⟩],
   [], rp1⟩

/-- A converging circuit exercising every component kind the solver
writes: input ON at `(0, 0)` on the gate of an n-type transistor, and a
wire from the drain `(100, 0)` to an output node at `(200, 0)`. -/
def witC : Circuit :=
  ⟨[⟨((0 : Int), (0 : Int)), .input, true⟩,
    ⟨((200 : Int), (0 : Int)), .output, false⟩],
   [⟨((100 : Int), (0 : Int)), ((200 : Int), (0 : Int)), false⟩],
   [⟨((0 : Int), (0 : Int)), false, .nType, .horizontal⟩],
   [], ∅⟩

/-! ### Correctness of the BFS of `propagate_signals` -/

lemma adj_subset_targets {g : Graph} {p q : Point} (h : q ∈ adj g p) :
    q ∈ targets g := by
  simp only [adj, List.mem_map, List.mem_filter] at h
  obtain ⟨e, ⟨he, _⟩, rfl⟩ := h
  exact List.mem_map.2 ⟨e, he, rfl⟩

lemma foldl_bfsStep_visited_mono {ns : List Point} {v : Finset Point}
    {q : List Point} {x : Point} (hx : x ∈ v) :
    x ∈ (ns.foldl bfsStep (v, q)).1 := by
  induction ns generalizing v q with
  | nil => exact hx
  | cons n ns ih =>
      rw [List.foldl_cons]
      simp only [bfsStep]
      split
      · exact ih hx
      · exact ih (Finset.mem_insert_of_mem hx)

lemma foldl_bfsStep_queue_mono {ns : List Point} {v : Finset Point}
    {q : List Point} {x : Point} (hx : x ∈ q) :
    x ∈ (ns.foldl bfsStep (v, q)).2 := by
  induction ns generalizing v q with
  | nil => exact hx
  | cons n ns ih =>
      rw [List.foldl_cons]
      simp only [bfsStep]
      split
      · exact ih hx
      · exact ih (List.mem_append_left _ hx)

lemma foldl_bfsStep_ns_visited {ns : List Point} {v : Finset Point}
    {q : List Point} {x : Point} (hx : x ∈ ns) :
    x ∈ (ns.foldl bfsStep (v, q)).1 := by
  induction ns generalizing v q with
  | nil => cases hx
  | cons n ns ih =>
      rw [List.foldl_cons]
      simp only [bfsStep]
      rcases List.mem_cons.1 hx with rfl | hx
      · split
        · exact foldl_bfsStep_visited_mono ‹x ∈ v›
        · exact foldl_bfsStep_visited_mono (Finset.mem_insert_self x v)
      · split
        · exact ih hx
        · exact ih hx

lemma foldl_bfsStep_visited_cases {ns : List Point} {v : Finset Point}
    {q : List Point} {x : Point} (hx : x ∈ (ns.foldl bfsStep (v, q)).1) :
    x ∈ v ∨ x ∈ ns := by
  induction ns generalizing v q with
  | nil => exact Or.inl hx
  | cons n ns ih =>
      rw [List.foldl_cons] at hx
      simp only [bfsStep] at hx
      split at hx
      · rcases ih hx with h | h
        · exact Or.inl h
        · exact Or.inr (List.mem_cons_of_mem _ h)
      · rcases ih hx with h | h
        · rcases Finset.mem_insert.1 h with rfl | h
          · exact Or.inr (List.mem_cons_self _ _)
          · exact Or.inl h
        · exact Or.inr (List.mem_cons_of_mem _ h)

lemma foldl_bfsStep_queue_cases {ns : List Point} {v : Finset Point}
    {q : List Point} {x : Point} (hx : x ∈ (ns.foldl bfsStep (v, q)).2) :
    x ∈ q ∨ x ∈ ns := by
  induction ns generalizing v q with
  | nil => exact Or.inl hx
  | cons n ns ih =>
      rw [List.foldl_cons] at hx
      simp only [bfsStep] at hx
      split at hx
      · rcases ih hx with h | h
        · exact Or.inl h
        · exact Or.inr (List.mem_cons_of_mem _ h)
      · rcases ih hx with h | h
        · rcases List.mem_append.1 h with h | h
          · exact Or.inl h
          · rcases List.mem_singleton.1 h with rfl
            exact Or.inr (List.mem_cons_self _ _)
        · exact Or.inr (List.mem_cons_of_mem _ h)

lemma foldl_bfsStep_new_in_queue {ns : List Point} {v : Finset Point}
    {q : List Point} {x : Point} (hx : x ∈ (ns.foldl bfsStep (v, q)).1)
    (hxv : x ∉ v) : x ∈ (ns.foldl bfsStep (v, q)).2 := by
  induction ns generalizing v q with
  | nil => exact absurd hx hxv
  | cons n ns ih =>
      rw [List.foldl_cons] at hx ⊢
      simp only [bfsStep] at hx ⊢
      split at hx
      · rw [if_pos ‹_›]
        exact ih hx hxv
      · rw [if_neg ‹_›]
        by_cases hxn : x ∈ (insert n v : Finset Point)
        · exact foldl_bfsStep_queue_mono
            (List.mem_append_right _ (List.mem_singleton.2
              (by rcases Finset.mem_insert.1 hxn with rfl | h
                  · rfl
                  · exact absurd h hxv)))
        · exact ih hx hxn

lemma foldl_bfsStep_queue_in_visited {ns : List Point} {v : Finset Point}
    {q : List Point} (hq : ∀ x ∈ q, x ∈ v) {x : Point}
    (hx : x ∈ (ns.foldl bfsStep (v, q)).2) :
    x ∈ (ns.foldl bfsStep (v, q)).1 := by
  induction ns generalizing v q with
  | nil => exact hq x hx
  | cons n ns ih =>
      rw [List.foldl_cons] at hx ⊢
      simp only [bfsStep] at hx ⊢
      split at hx
      · rw [if_pos ‹_›]
        exact ih hq hx
      · rw [if_neg ‹_›]
        refine ih ?_ hx
        intro y hy
        rcases List.mem_append.1 hy with hy | hy
        · exact Finset.mem_insert_of_mem (hq y hy)
        · rcases List.mem_singleton.1 hy with rfl
          exact Finset.mem_insert_self _ _

lemma foldl_bfsStep_measure (T : Finset Point) {ns : List Point}
    {v : Finset Point} {q : List Point} (hns : ∀ n ∈ ns, n ∈ T) :
    (ns.foldl bfsStep (v, q)).2.length + (T \ (ns.foldl bfsStep (v, q)).1).card
      = q.length + (T \ v).card := by
  induction ns generalizing v q with
  | nil => rfl
  | cons n ns ih =>
      rw [List.foldl_cons]
      simp only [bfsStep]
      split
      · exact ih fun m hm => hns m (List.mem_cons_of_mem _ hm)
      · rw [ih fun m hm => hns m (List.mem_cons_of_mem _ hm)]
        have hn : n ∈ T \ v :=
          Finset.mem_sdiff.2 ⟨hns n (List.mem_cons_self _ _), ‹n ∉ v›⟩
        have he : T \ insert n v = (T \ v).erase n := by
          ext y
          simp only [Finset.mem_sdiff, Finset.mem_insert, Finset.mem_erase]
          tauto
        have hpos : 0 < (T \ v).card := Finset.card_pos.2 ⟨n, hn⟩
        rw [he, Finset.card_erase_of_mem hn, List.length_append]
        simp only [List.length_singleton]
        omega

lemma bfsAux_visited_subset {g : Graph} :
    ∀ (fuel : Nat) (queue : List Point) (visited : Finset Point) {x : Point},
      x ∈ visited → x ∈ bfsAux g fuel queue visited := by
  intro fuel
  induction fuel with
  | zero =>
      intro queue visited x hx
      cases queue with
      | nil => exact hx
      | cons a as => exact hx
  | succ fuel ih =>
      intro queue visited x hx
      cases queue with
      | nil => exact hx
      | cons current rest =>
          simp only [bfsAux]
          exact ih _ _ (foldl_bfsStep_visited_mono hx)

lemma bfsAux_sound {g : Graph} {srcs : List Point} :
    ∀ (fuel : Nat) (queue : List Point) (visited : Finset Point),
      (∀ x ∈ visited, Reach g srcs x) → (∀ x ∈ queue, Reach g srcs x) →
      ∀ p ∈ bfsAux g fuel queue visited, Reach g srcs p := by
  intro fuel
  induction fuel with
  | zero =>
      intro queue visited hv _ p hp
      cases queue with
      | nil => exact hv p hp
      | cons a as => exact hv p hp
  | succ fuel ih =>
      intro queue visited hv hq p hp
      cases queue with
      | nil => exact hv p hp
      | cons current rest =>
          simp only [bfsAux] at hp
          refine ih _ _ ?_ ?_ p hp
          · intro x hx
            rcases foldl_bfsStep_visited_cases hx with h | h
            · exact hv x h
            · exact Reach.step (hq current (List.mem_cons_self _ _)) h
          · intro x hx
            rcases foldl_bfsStep_queue_cases hx with h | h
            · exact hq x (List.mem_cons_of_mem _ h)
            · exact Reach.step (hq current (List.mem_cons_self _ _)) h

lemma bfsAux_closed {g : Graph} :
    ∀ (fuel : Nat) (queue : List Point) (visited : Finset Point),
      (∀ x ∈ queue, x ∈ visited) →
      (∀ x ∈ visited, x ∉ queue → ∀ n ∈ adj g x, n ∈ visited) →
      queue.length + ((targets g).toFinset \ visited).card ≤ fuel →
      ∀ x ∈ bfsAux g fuel queue visited, ∀ n ∈ adj g x,
        n ∈ bfsAux g fuel queue visited := by
  intro fuel
  induction fuel with
  | zero =>
      intro queue visited hqv hcl hm x hx n hn
      cases queue with
      | nil => exact hcl x hx (by simp) n hn
      | cons a as => simp at hm
  | succ fuel ih =>
      intro queue visited hqv hcl hm x hx n hn
      cases queue with
      | nil => exact hcl x hx (by simp) n hn
      | cons current rest =>
          simp only [bfsAux] at hx ⊢
          refine ih _ _ ?_ ?_ ?_ x hx n hn
          · intro y hy
            exact foldl_bfsStep_queue_in_visited
              (fun z hz => hqv z (List.mem_cons_of_mem _ hz)) hy
          · intro y hy hyq m hm'
            rcases foldl_bfsStep_visited_cases hy with h | h
            · by_cases hyc : y = current
              · subst hyc
                exact foldl_bfsStep_ns_visited hm'
              · have hyrest : y ∉ rest := fun hr => hyq (foldl_bfsStep_queue_mono hr)
                have : y ∉ current :: rest := by
                  intro hcc
                  rcases List.mem_cons.1 hcc with h' | h'
                  · exact hyc h'
                  · exact hyrest h'
                exact foldl_bfsStep_visited_mono (hcl y h this m hm')
            · have hyv : y ∈ visited ∨ y ∉ visited := em _
              rcases hyv with h' | h'
              · by_cases hyc : y = current
                · subst hyc
                  exact foldl_bfsStep_ns_visited hm'
                · have hyrest : y ∉ rest := fun hr => hyq (foldl_bfsStep_queue_mono hr)
                  have : y ∉ current :: rest := by
                    intro hcc
                    rcases List.mem_cons.1 hcc with h'' | h''
                    · exact hyc h''
                    · exact hyrest h''
                  exact foldl_bfsStep_visited_mono (hcl y h' this m hm')
              · exact absurd (foldl_bfsStep_new_in_queue hy h') hyq
          · have hmeq := @foldl_bfsStep_measure ((targets g).toFinset)
              (adj g current) visited rest
              (fun m hm' => List.mem_toFinset.2 (adj_subset_targets hm'))
            simp only [List.length_cons] at hm
            omega

lemma propagateSignals_sound {g : Graph} {srcs : List Point} {p : Point}
    (hp : p ∈ propagateSignals g srcs) : Reach g srcs p := by
  refine bfsAux_sound _ _ _ ?_ ?_ p hp
  · intro x hx
    exact Reach.source (List.mem_toFinset.1 hx)
  · intro x hx
    exact Reach.source hx

lemma propagateSignals_complete {g : Graph} {srcs : List Point} {p : Point}
    (h : Reach g srcs p) : p ∈ propagateSignals g srcs := by
  have hseed : srcs.length + ((targets g).toFinset \ srcs.toFinset).card
      ≤ srcs.length + g.length := by
    have h1 : ((targets g).toFinset \ srcs.toFinset).card
        ≤ (targets g).toFinset.card :=
      Finset.card_le_card (Finset.sdiff_subset)
    have h2 : (targets g).toFinset.card ≤ (targets g).length :=
      List.toFinset_card_le _
    have h3 : (targets g).length = g.length := List.length_map _ _
    omega
  induction h with
  | source hp => exact bfsAux_visited_subset _ _ _ (List.mem_toFinset.2 hp)
  | step _ hadj ih =>
      exact bfsAux_closed _ _ _ (fun x hx => List.mem_toFinset.2 hx)
        (fun x hx hxq => absurd (List.mem_toFinset.1 hx) hxq) hseed _ ih _ hadj

lemma propagateSignals_iff {g : Graph} {srcs : List Point} {p : Point} :
    p ∈ propagateSignals g srcs ↔ Reach g srcs p :=
  ⟨propagateSignals_sound, propagateSignals_complete⟩

lemma reach_sources_congr {g : Graph} {s₁ s₂ : List Point}
    (h : ∀ x, x ∈ s₁ ↔ x ∈ s₂) {p : Point} :
    Reach g s₁ p ↔ Reach g s₂ p := by
  constructor
  · intro hr
    induction hr with
    | source hp => exact Reach.source ((h _).1 hp)
    | step _ hadj ih => exact Reach.step ih hadj
  · intro hr
    induction hr with
    | source hp => exact Reach.source ((h _).2 hp)
    | step _ hadj ih => exact Reach.step ih hadj

/-! ### Claim C1 -/

/-- Claim C1, as stated, is false: on the adjacency mapping `asymG` the
point `(1, 0)` is reachable from the sources by *undirected* traversal,
yet `propagate_signals` does not return it. -/
theorem claim_C1_counterexample :
    ReachUndirected asymG asymSrcs ((1 : Int), (0 : Int)) ∧
      ((1 : Int), (0 : Int)) ∉ propagateSignals asymG asymSrcs := by
  constructor
  · refine ReachUndirected.step (p := ((0 : Int), (0 : Int)))
      (ReachUndirected.source ?_) (Or.inr ?_)
    · simp [asymSrcs]
    · decide
  · decide

/-- Claim C1 (amended): for every adjacency mapping and every list of
source points, `propagate_signals` returns exactly the set of points
reachable from the sources by *following the adjacency lists*
(directed traversal); every source point is in the result even when it
has no entry in the mapping; and the result depends only on the graph
and the source *set*, not on the order (or multiplicity) of the source
list. -/
theorem claim_C1 (g : Graph) (srcs : List Point) :
    (∀ p, p ∈ propagateSignals g srcs ↔ Reach g srcs p) ∧
      (∀ p ∈ srcs, p ∈ propagateSignals g srcs) ∧
      (∀ srcs' : List Point, (∀ x, x ∈ srcs ↔ x ∈ srcs') →
        propagateSignals g srcs = propagateSignals g srcs') := by
  refine ⟨fun p => propagateSignals_iff, ?_, ?_⟩
  · intro p hp
    exact propagateSignals_complete (Reach.source hp)
  · intro srcs' h
    ext p
    rw [propagateSignals_iff, propagateSignals_iff]
    exact reach_sources_congr h

/-- Witness for `claim_C1`, discharging its embedded hypotheses on the
one-edge graph `asymG`: the source is returned, and reversing and
duplicating the source list does not change the result. -/
theorem claim_C1_witness :
    ((0 : Int), (0 : Int)) ∈ propagateSignals asymG asymSrcs ∧
      propagateSignals asymG asymSrcs
        = propagateSignals asymG (asymSrcs ++ asymSrcs) := by
  constructor
  · exact (claim_C1 asymG asymSrcs).2.1 _ (by simp [asymSrcs])
  · exact (claim_C1 asymG asymSrcs).2.2 _ (by intro x; simp [asymSrcs])

/-! ### The entries of `build_connectivity_graph` -/

lemma mem_wireEdges {ws : List Wire} {p q : Point} :
    (p, q) ∈ wireEdges ws ↔
      ∃ w ∈ ws, (p = w.start_point ∧ q = w.end_point) ∨
        (p = w.end_point ∧ q = w.start_point) := by
  simp only [wireEdges, List.mem_flatMap, List.mem_cons, List.mem_singleton,
    List.not_mem_nil, or_false, Prod.mk.injEq]

lemma mem_transistorEdges {ts : List Transistor} {P : Finset Point}
    {p q : Point} :
    (p, q) ∈ transistorEdges ts P ↔
      ∃ t ∈ ts, conductingAt t P = true ∧
        ((p = t.sourcePoint ∧ q = t.drainPoint) ∨
          (p = t.drainPoint ∧ q = t.sourcePoint)) := by
  simp only [transistorEdges, List.mem_flatMap]
  constructor
  · rintro ⟨t, ht, hmem⟩
    by_cases hc : conductingAt t P = true
    · rw [if_pos hc] at hmem
      simp only [List.mem_cons, List.mem_singleton, List.not_mem_nil, or_false,
        Prod.mk.injEq] at hmem
      rcases hmem with h | h
      · exact ⟨t, ht, hc, Or.inl ⟨h.1, h.2⟩⟩
      · exact ⟨t, ht, hc, Or.inr ⟨h.1, h.2⟩⟩
    · rw [if_neg hc] at hmem
      cases hmem
  · rintro ⟨t, ht, hc, h⟩
    refine ⟨t, ht, ?_⟩
    rw [if_pos hc]
    rcases h with ⟨h1, h2⟩ | ⟨h1, h2⟩
    · subst h1; subst h2; exact List.mem_cons_self _ _
    · subst h1; subst h2
      exact List.mem_cons_of_mem _ (List.mem_singleton.2 rfl)

lemma mem_buildGraphP {c : Circuit} {P : Finset Point} {p q : Point} :
    (p, q) ∈ buildConnectivityGraphP c P ↔
      (∃ w ∈ c.wires, (p = w.start_point ∧ q = w.end_point) ∨
        (p = w.end_point ∧ q = w.start_point)) ∨
      (∃ t ∈ c.transistors, conductingAt t P = true ∧
        ((p = t.sourcePoint ∧ q = t.drainPoint) ∨
          (p = t.drainPoint ∧ q = t.sourcePoint))) := by
  rw [buildConnectivityGraphP, List.mem_append, mem_wireEdges, mem_transistorEdges]

lemma mem_adj {g : Graph} {p q : Point} :
    q ∈ adj g p ↔ (p, q) ∈ g := by
  simp only [adj, List.mem_map, List.mem_filter, decide_eq_true_eq]
  constructor
  · rintro ⟨e, ⟨he, h1⟩, h2⟩
    have : e = (p, q) := by
      cases e
      cases h1
      cases h2
      rfl
    exact this ▸ he
  · intro h
    exact ⟨(p, q), ⟨h, rfl⟩, rfl⟩

lemma mem_buildGraphP_swap {c : Circuit} {P : Finset Point} {p q : Point}
    (h : (p, q) ∈ buildConnectivityGraphP c P) :
    (q, p) ∈ buildConnectivityGraphP c P := by
  rw [mem_buildGraphP] at h ⊢
  rcases h with ⟨w, hw, h | h⟩ | ⟨t, ht, hc, h | h⟩
  · exact Or.inl ⟨w, hw, Or.inr ⟨h.2, h.1⟩⟩
  · exact Or.inl ⟨w, hw, Or.inl ⟨h.2, h.1⟩⟩
  · exact Or.inr ⟨t, ht, hc, Or.inr ⟨h.2, h.1⟩⟩
  · exact Or.inr ⟨t, ht, hc, Or.inl ⟨h.2, h.1⟩⟩

/-! ### Claims C2 and C10 -/

/-- Claim C2: the adjacency entries produced by
`build_connectivity_graph` with energized lookup `P` are exactly: both
directions of every wire's start–end edge, plus, for every transistor
that conducts (n-type iff its gate position is in `P`, p-type iff it is
not), both directions of the source–drain edge, where source and drain
are the gate position offset by one `GRID_SPACING` each way along the
x axis for horizontal transistors and along the y axis for vertical
ones. -/
theorem claim_C2 (c : Circuit) (P : Finset Point) (p q : Point) :
    (p, q) ∈ buildConnectivityGraphP c P ↔
      (∃ w ∈ c.wires, (p = w.start_point ∧ q = w.end_point) ∨
        (p = w.end_point ∧ q = w.start_point)) ∨
      (∃ t ∈ c.transistors,
        ((t.transistor_type = .nType ∧ t.position ∈ P) ∨
          (t.transistor_type = .pType ∧ t.position ∉ P)) ∧
        ((t.orientation = .horizontal ∧
            ((p = (t.position.1 - GRID_SPACING, t.position.2) ∧
                q = (t.position.1 + GRID_SPACING, t.position.2)) ∨
              (p = (t.position.1 + GRID_SPACING, t.position.2) ∧
                q = (t.position.1 - GRID_SPACING, t.position.2)))) ∨
          (t.orientation = .vertical ∧
            ((p = (t.position.1, t.position.2 - GRID_SPACING) ∧
                q = (t.position.1, t.position.2 + GRID_SPACING)) ∨
              (p = (t.position.1, t.position.2 + GRID_SPACING) ∧
                q = (t.position.1, t.position.2 - GRID_SPACING)))))) := by
  rw [mem_buildGraphP]
  refine or_congr Iff.rfl (exists_congr fun t => and_congr_right fun _ => ?_)
  refine and_congr ?_ ?_
  · cases htt : t.transistor_type with
    | nType => simp [conductingAt, htt]
    | pType => simp [conductingAt, htt]
  · cases hor : t.orientation with
    | horizontal => simp [Transistor.sourcePoint, Transistor.drainPoint, hor]
    | vertical => simp [Transistor.sourcePoint, Transistor.drainPoint, hor]

/-- Claim C10: the adjacency mapping built by `build_connectivity_graph`
is symmetric — `q` appears in the adjacency list of `p` iff `p` appears
in the adjacency list of `q`. -/
theorem claim_C10 (c : Circuit) (p q : Point) :
    q ∈ adj (buildConnectivityGraph c) p ↔
      p ∈ adj (buildConnectivityGraph c) q := by
  rw [mem_adj, mem_adj]
  exact ⟨mem_buildGraphP_swap, mem_buildGraphP_swap⟩

/-! ### Clocks (claim C8) -/

lemma stepBody_clocks (c : Circuit) : (stepBody c).1.clocks = c.clocks := rfl

lemma updateStates_clocks (c : Circuit) : (updateStates c).clocks = c.clocks := rfl

lemma solveLoop_clocks :
    ∀ (fuel : Nat) (c : Circuit) (ps pps : Option Sig),
      (solveLoop fuel c ps pps).1.clocks = c.clocks := by
  intro fuel
  induction fuel with
  | zero => intro c ps pps; rfl
  | succ fuel ih =>
      intro c ps pps
      simp only [solveLoop]
      split
      · rfl
      · split
        · rfl
        · rw [ih, updateStates_clocks, stepBody_clocks]

lemma finalRefresh_clocks (c : Circuit) : (finalRefresh c).clocks = c.clocks := rfl

lemma clock_update_of_ge {k : Clock} (h : k.frame_counter + 1 ≥ k.frequency) :
    Clock.update k = { k with state := !k.state, frame_counter := 0 } := by
  rw [Clock.update, if_pos h]

lemma clock_update_of_lt {k : Clock} (h : k.frame_counter + 1 < k.frequency) :
    Clock.update k = { k with frame_counter := k.frame_counter + 1 } := by
  rw [Clock.update, if_neg (by omega)]

lemma clock_iterate_below {pos : Point} {s : Bool} {N : Int} :
    ∀ m : Nat, (m : Int) < N →
      Clock.update^[m] ⟨pos, s, N, 0⟩ = ⟨pos, s, N, (m : Int)⟩ := by
  intro m
  induction m with
  | zero => intro _; rfl
  | succ m ih =>
      intro hm
      have hm' : (m : Int) < N := by push_cast at hm ⊢; omega
      rw [Function.iterate_succ_apply', ih hm',
        clock_update_of_lt (show (m : Int) + 1 < N by push_cast at hm; omega)]
      simp

lemma clock_toggle {pos : Point} {s : Bool} {N : Int} (hN : 1 ≤ N) :
    Clock.update^[N.toNat] ⟨pos, s, N, 0⟩ = ⟨pos, !s, N, 0⟩ := by
  have h1 : N.toNat = (N.toNat - 1) + 1 := by omega
  rw [h1, Function.iterate_succ_apply',
    clock_iterate_below (N.toNat - 1) (by omega),
    clock_update_of_ge (show ((N.toNat - 1 : Nat) : Int) + 1 ≥ N by omega)]

/-- Claim C8: a clock with frequency `N ≥ 1` and phase counter `0` keeps
its state (counter running up) through the first `N - 1` advance calls
and toggles exactly on the `N`-th call, with the counter reset to `0`;
and `update_circuit_state` advances every clock exactly once per tick
(the solve loop and the final refresh never touch the clock list), so
this is independent of how many inner iterations a tick runs. -/
theorem claim_C8 (pos : Point) (s : Bool) (N : Int) (hN : 1 ≤ N) :
    ((∀ m : Nat, (m : Int) < N →
        Clock.update^[m] ⟨pos, s, N, 0⟩ = ⟨pos, s, N, (m : Int)⟩) ∧
      Clock.update^[N.toNat] ⟨pos, s, N, 0⟩ = ⟨pos, !s, N, 0⟩) ∧
    ∀ c : Circuit, ((updateCircuitState c).1).clocks = c.clocks.map Clock.update := by
  refine ⟨⟨clock_iterate_below, clock_toggle hN⟩, ?_⟩
  intro c
  show (finalRefresh (solveLoop 10001 (tickClocks c) none none).1).clocks = _
  rw [finalRefresh_clocks, solveLoop_clocks]
  rfl

/-- Witness for `claim_C8` at frequency `2`: one advance call keeps the
state and counts to `1`, the second toggles; and a tick advances the
clock of `clkC` once. -/
theorem claim_C8_witness :
    (Clock.update^[1] ⟨((0 : Int), (0 : Int)), false, 2, 0⟩
        = ⟨((0 : Int), (0 : Int)), false, 2, 1⟩ ∧
      Clock.update^[(2 : Int).toNat] ⟨((0 : Int), (0 : Int)), false, 2, 0⟩
        = ⟨((0 : Int), (0 : Int)), !false, 2, 0⟩) ∧
    ((updateCircuitState clkC).1).clocks = clkC.clocks.map Clock.update := by
  refine ⟨⟨?_, ?_⟩, ?_⟩
  · exact (claim_C8 ((0 : Int), (0 : Int)) false 2 (by decide)).1.1 1 (by decide)
  · exact (claim_C8 ((0 : Int), (0 : Int)) false 2 (by decide)).1.2
  · exact (claim_C8 ((0 : Int), (0 : Int)) false 2 (by decide)).2 clkC

/-! ### Frame conditions (claim C9) -/

lemma map_map_eq_of_comp {α β : Type _} (l : List α) (g : α → α) (f : α → β)
    (h : ∀ a, f (g a) = f a) : (l.map g).map f = l.map f := by
  rw [List.map_map]
  exact List.map_congr_left fun a _ => h a

lemma nodeFrame_refresh (P : Finset Point) (n : Node) :
    nodeFrame (if n.node_type = .output then
      { n with state := decide (n.position ∈ P) } else n) = nodeFrame n := by
  cases h : n.node_type with
  | input => simp [h]
  | output => simp [nodeFrame, h]

lemma frames_stepBody (c : Circuit) : frames (stepBody c).1 = frames c := rfl

lemma frames_updateStates (c : Circuit) : frames (updateStates c) = frames c := by
  unfold frames updateStates
  refine congrArg₂ Prod.mk ?_ (congrArg₂ Prod.mk ?_ (congrArg₂ Prod.mk ?_ rfl))
  · exact map_map_eq_of_comp _ _ _ fun w => rfl
  · exact map_map_eq_of_comp _ _ _ (nodeFrame_refresh c.on_points)
  · exact map_map_eq_of_comp _ _ _ fun t => rfl

lemma frames_finalRefresh (c : Circuit) : frames (finalRefresh c) = frames c := by
  unfold frames finalRefresh
  refine congrArg₂ Prod.mk ?_ (congrArg₂ Prod.mk ?_ rfl)
  · exact map_map_eq_of_comp _ _ _ fun w => rfl
  · exact map_map_eq_of_comp _ _ _ (nodeFrame_refresh c.on_points)

lemma clockFrame_update (k : Clock) : clockFrame (Clock.update k) = clockFrame k := by
  unfold Clock.update
  split <;> rfl

lemma frames_tickClocks (c : Circuit) : frames (tickClocks c) = frames c := by
  unfold frames tickClocks
  exact congrArg₂ Prod.mk rfl (congrArg₂ Prod.mk rfl (congrArg₂ Prod.mk rfl
    (map_map_eq_of_comp _ _ _ clockFrame_update)))

lemma frames_solveLoop :
    ∀ (fuel : Nat) (c : Circuit) (ps pps : Option Sig),
      frames (solveLoop fuel c ps pps).1 = frames c := by
  intro fuel
  induction fuel with
  | zero => intro c ps pps; rfl
  | succ fuel ih =>
      intro c ps pps
      simp only [solveLoop]
      split
      · exact frames_stepBody c
      · split
        · exact frames_stepBody c
        · rw [ih, frames_updateStates, frames_stepBody]

lemma frames_tick (c : Circuit) : frames (updateCircuitState c).1 = frames c := by
  show frames (finalRefresh (solveLoop 10001 (tickClocks c) none none).1) = frames c
  rw [frames_finalRefresh, frames_solveLoop, frames_tickClocks]

/-- Claim C9: one call of `update_circuit_state` leaves unchanged every
wire's endpoints, every node's position and kind, every input node's
state, every transistor's position, kind and axis, and every clock's
position and frequency — and it preserves the length (hence membership
structure) of each component collection.  Only the cached booleans,
the clock phase data and `on_points` may change. -/
theorem claim_C9 (c : Circuit) :
    ((updateCircuitState c).1).wires.map (fun w => (w.start_point, w.end_point))
        = c.wires.map (fun w => (w.start_point, w.end_point)) ∧
      ((updateCircuitState c).1).nodes.map (fun n => (n.position, n.node_type))
        = c.nodes.map (fun n => (n.position, n.node_type)) ∧
      ((updateCircuitState c).1).nodes.map
          (fun n => if n.node_type = .input then some n.state else none)
        = c.nodes.map (fun n => if n.node_type = .input then some n.state else none) ∧
      ((updateCircuitState c).1).transistors.map
          (fun t => (t.position, t.transistor_type, t.orientation))
        = c.transistors.map (fun t => (t.position, t.transistor_type, t.orientation)) ∧
      ((updateCircuitState c).1).clocks.map (fun k => (k.position, k.frequency))
        = c.clocks.map (fun k => (k.position, k.frequency)) := by
  have h := frames_tick c
  unfold frames at h
  have hw := congrArg (fun x => x.1) h
  have hn := congrArg (fun x => x.2.1) h
  have ht := congrArg (fun x => x.2.2.1) h
  have hk := congrArg (fun x => x.2.2.2) h
  simp only at hw hn ht hk
  refine ⟨hw, ?_, ?_, ht, hk⟩
  · have := congrArg (List.map fun x : Point × NodeType × Option Bool => (x.1, x.2.1)) hn
    rw [List.map_map, List.map_map] at this
    exact this
  · have := congrArg (List.map fun x : Point × NodeType × Option Bool => x.2.2) hn
    rw [List.map_map, List.map_map] at this
    exact this

/-! ### The solve loop: iteration count (claim C5) -/

lemma countIter_le_fuel :
    ∀ (fuel : Nat) (c : Circuit) (ps pps : Option Sig),
      countIter fuel c ps pps ≤ fuel := by
  intro fuel
  induction fuel with
  | zero => intro c ps pps; exact Nat.le_refl 0
  | succ fuel ih =>
      intro c ps pps
      simp only [countIter]
      split
      · omega
      · split
        · omega
        · have := ih (updateStates (stepBody c).1) (some (stepBody c).2) ps
          omega

lemma countIter_of_cap :
    ∀ (fuel : Nat) (c : Circuit) (ps pps : Option Sig),
      (solveLoop fuel c ps pps).2 = .iterationLimit →
      countIter fuel c ps pps = fuel := by
  intro fuel
  induction fuel with
  | zero => intro c ps pps _; rfl
  | succ fuel ih =>
      intro c ps pps h
      simp only [solveLoop] at h
      simp only [countIter]
      by_cases h1 : some (stepBody c).2 = pps
      · rw [if_pos h1] at h
        simp at h
      · rw [if_neg h1] at h
        rw [if_neg h1]
        by_cases h2 : some (stepBody c).2 = ps
        · rw [if_pos h2] at h
          simp at h
        · rw [if_neg h2] at h
          rw [if_neg h2, ih _ _ _ h]
          omega

/-- Claim C5: the solve loop of `update_circuit_state` always stops: the
`iter > 10000` guard admits at most 10001 executions of the loop body
(the recursion is structural in the remaining allowance, so the
embedded tick function is total for every circuit), and a tick that
ends in the iteration-limit condition has executed exactly that many
bodies. -/
theorem claim_C5 (c : Circuit) :
    tickIterations c ≤ 10001 ∧
      ((updateCircuitState c).2 = .iterationLimit → tickIterations c = 10001) := by
  refine ⟨countIter_le_fuel _ _ _ _, fun h => countIter_of_cap _ _ _ _ h⟩

/-! ### Static data of a circuit seen by the graph builder -/

lemma flatMap_map_eq {α β : Type _} (l : List α) (g : α → α) (f : α → List β)
    (h : ∀ a, f (g a) = f a) : (l.map g).flatMap f = l.flatMap f := by
  induction l with
  | nil => rfl
  | cons a l ih => simp only [List.map_cons, List.flatMap_cons, h, ih]

lemma updateStates_on (c : Circuit) : (updateStates c).on_points = c.on_points := rfl

lemma stepBody_fst (c : Circuit) :
    (stepBody c).1 = { c with on_points := energizeF c c.on_points } := rfl

lemma stepBody_snd (c : Circuit) :
    (stepBody c).2 = (energizeF c c.on_points, transTuple c) := rfl

lemma energizeF_set_on (c : Circuit) (Q P : Finset Point) :
    energizeF { c with on_points := Q } P = energizeF c P := rfl

lemma predTuple_set_on (c : Circuit) (Q P : Finset Point) :
    predTuple { c with on_points := Q } P = predTuple c P := rfl

lemma transTuple_set_on (c : Circuit) (Q : Finset Point) :
    transTuple { c with on_points := Q } = transTuple c := rfl

lemma inputPoints_filter_refresh (l : List Node) (P : Finset Point) :
    ((l.map fun n => if n.node_type = .output then
        { n with state := decide (n.position ∈ P) } else n).filter
      fun n => decide (n.node_type = .input) && n.state).map (·.position)
    = (l.filter fun n => decide (n.node_type = .input) && n.state).map (·.position) := by
  induction l with
  | nil => rfl
  | cons n l ih =>
      cases h : n.node_type with
      | input => by_cases hs : n.state <;> simp [List.filter_cons, h, hs, ih]
      | output => simp [List.filter_cons, h, ih]

lemma inputPoints_updateStates (c : Circuit) :
    inputPoints (updateStates c) = inputPoints c := by
  unfold inputPoints updateStates
  rw [inputPoints_filter_refresh]

lemma inputPoints_finalRefresh (c : Circuit) :
    inputPoints (finalRefresh c) = inputPoints c := by
  unfold inputPoints finalRefresh
  rw [inputPoints_filter_refresh]

lemma wireEdges_refresh (ws : List Wire) (P : Finset Point) :
    wireEdges (ws.map fun w =>
      { w with state := decide (w.start_point ∈ P) || decide (w.end_point ∈ P) })
      = wireEdges ws :=
  flatMap_map_eq _ _ _ fun _ => rfl

lemma transistorEdges_refresh (ts : List Transistor) (Q P : Finset Point) :
    transistorEdges (ts.map fun t => { t with state := conductingAt t Q }) P
      = transistorEdges ts P :=
  flatMap_map_eq _ _ _ fun _ => rfl

lemma energizeF_updateStates (c : Circuit) (P : Finset Point) :
    energizeF (updateStates c) P = energizeF c P := by
  unfold energizeF buildConnectivityGraphP updateStates
  rw [wireEdges_refresh, transistorEdges_refresh]
  have h := inputPoints_updateStates c
  unfold updateStates at h
  rw [h]

lemma energizeF_finalRefresh (c : Circuit) (P : Finset Point) :
    energizeF (finalRefresh c) P = energizeF c P := by
  unfold energizeF buildConnectivityGraphP finalRefresh
  rw [wireEdges_refresh]
  have h := inputPoints_finalRefresh c
  unfold finalRefresh at h
  rw [h]

lemma predTuple_updateStates (c : Circuit) (P : Finset Point) :
    predTuple (updateStates c) P = predTuple c P :=
  map_map_eq_of_comp _ _ _ fun _ => rfl

lemma transTuple_updateStates (c : Circuit) :
    transTuple (updateStates c) = predTuple c c.on_points := by
  unfold transTuple updateStates predTuple
  rw [List.map_map]
  rfl

lemma predTuple_finalRefresh (c : Circuit) (P : Finset Point) :
    predTuple (finalRefresh c) P = predTuple c P := rfl

lemma transTuple_finalRefresh (c : Circuit) :
    transTuple (finalRefresh c) = transTuple c := rfl

lemma finalRefresh_on (c : Circuit) : (finalRefresh c).on_points = c.on_points := rfl

/-! ### What each solve-loop exit guarantees -/

/-- Exit analysis of the solve loop.  Provided the history invariant
holds on entry (`previous_states`, when present, records the current
`on_points` and matching transistor tuple, and `previous_previous_states`
records a set one application of `energizeF` behind), a convergence
break leaves `on_points` a fixed point of one build-and-propagate pass
with transistor states matching the gating predicate there, while an
oscillation break leaves `on_points` on a 2-cycle with transistor
states matching the gating predicate at the *other* phase of the
cycle. -/
lemma solveLoop_exit :
    ∀ (fuel : Nat) (c : Circuit) (ps pps : Option Sig),
      (∀ x : Sig, ps = some x →
        x.1 = c.on_points ∧ transTuple c = predTuple c c.on_points) →
      (∀ y : Sig, pps = some y →
        energizeF c y.1 = c.on_points ∧ transTuple c = predTuple c c.on_points) →
      ∀ d st, solveLoop fuel c ps pps = (d, st) →
        (st = .converged →
          d.on_points = energizeF d d.on_points ∧
            transTuple d = predTuple d d.on_points) ∧
        (st = .oscillating →
          energizeF d (energizeF d d.on_points) = d.on_points ∧
            transTuple d = predTuple d (energizeF d d.on_points)) := by
  intro fuel
  induction fuel with
  | zero =>
      intro c ps pps _ _ d st h
      simp only [solveLoop] at h
      injection h with hd hst
      subst hd
      subst hst
      exact ⟨fun h' => absurd h' (by decide), fun h' => absurd h' (by decide)⟩
  | succ fuel ih =>
      intro c ps pps hps hpps d st h
      simp only [solveLoop] at h
      by_cases h1 : some (stepBody c).2 = pps
      · rw [if_pos h1] at h
        injection h with hd hst
        subst hd
        subst hst
        refine ⟨fun h' => absurd h' (by decide), fun _ => ?_⟩
        have hP : energizeF c (energizeF c c.on_points) = c.on_points :=
          (hpps (stepBody c).2 h1.symm).1
        have hT : transTuple c = predTuple c c.on_points :=
          (hpps (stepBody c).2 h1.symm).2
        constructor
        · show energizeF c (energizeF c (energizeF c c.on_points))
            = energizeF c c.on_points
          exact congrArg (energizeF c) hP
        · show transTuple c = predTuple c (energizeF c (energizeF c c.on_points))
          exact hT.trans (congrArg (predTuple c) hP).symm
      · rw [if_neg h1] at h
        by_cases h2 : some (stepBody c).2 = ps
        · rw [if_pos h2] at h
          injection h with hd hst
          subst hd
          subst hst
          refine ⟨fun _ => ?_, fun h' => absurd h' (by decide)⟩
          have hP : energizeF c c.on_points = c.on_points :=
            (hps (stepBody c).2 h2.symm).1
          have hT : transTuple c = predTuple c c.on_points :=
            (hps (stepBody c).2 h2.symm).2
          constructor
          · show energizeF c c.on_points = energizeF c (energizeF c c.on_points)
            exact (congrArg (energizeF c) hP).symm
          · show transTuple c = predTuple c (energizeF c c.on_points)
            exact hT.trans (congrArg (predTuple c) hP).symm
        · rw [if_neg h2] at h
          refine ih _ _ _ ?_ ?_ d st h
          · intro x hx
            obtain rfl : (stepBody c).2 = x := Option.some.inj hx
            constructor
            · rfl
            · show transTuple (updateStates (stepBody c).1)
                = predTuple (updateStates (stepBody c).1)
                    (updateStates (stepBody c).1).on_points
              rw [transTuple_updateStates, predTuple_updateStates, updateStates_on]
          · intro y hy
            obtain ⟨hy1, _⟩ := hps y hy
            constructor
            · show energizeF (updateStates (stepBody c).1) y.1
                = (updateStates (stepBody c).1).on_points
              rw [hy1, energizeF_updateStates]
              rfl
            · show transTuple (updateStates (stepBody c).1)
                = predTuple (updateStates (stepBody c).1)
                    (updateStates (stepBody c).1).on_points
              rw [transTuple_updateStates, predTuple_updateStates, updateStates_on]

lemma finalRefresh_wires_spec (e : Circuit) :
    ∀ w ∈ (finalRefresh e).wires,
      w.state = (decide (w.start_point ∈ (finalRefresh e).on_points)
        || decide (w.end_point ∈ (finalRefresh e).on_points)) := by
  intro w hw
  obtain ⟨w0, _, rfl⟩ := List.mem_map.1 hw
  rfl

lemma finalRefresh_nodes_spec (e : Circuit) :
    ∀ n ∈ (finalRefresh e).nodes, n.node_type = .output →
      n.state = decide (n.position ∈ (finalRefresh e).on_points) := by
  intro n hn hout
  obtain ⟨n0, _, rfl⟩ := List.mem_map.1 hn
  by_cases h0 : n0.node_type = .output
  · rw [if_pos h0]
    rfl
  · rw [if_neg h0] at hout ⊢
    exact absurd hout h0

lemma map_eq_imp_mem {α β : Type _} {l : List α} {f g : α → β}
    (h : l.map f = l.map g) : ∀ a ∈ l, f a = g a := by
  induction l with
  | nil => intro a ha; cases ha
  | cons a l ih =>
      simp only [List.map_cons, List.cons.injEq] at h
      intro b hb
      rcases List.mem_cons.1 hb with rfl | hb
      · exact h.1
      · exact ih h.2 b hb

lemma status_cases (s : SolveStatus) :
    s = .converged ∨ s = .oscillating ∨ s = .iterationLimit := by
  cases s
  · exact Or.inl rfl
  · exact Or.inr (Or.inl rfl)
  · exact Or.inr (Or.inr rfl)

/-- An iteration-cap exit of the solve loop preserves the invariant that
the transistor states equal the gating predicate on the current
`on_points`: the cap break at the loop top changes nothing, and every
completed loop body re-establishes the invariant through
`updateStates`. -/
lemma solveLoop_cap_inv :
    ∀ (fuel : Nat) (c : Circuit) (ps pps : Option Sig),
      transTuple c = predTuple c c.on_points →
      (solveLoop fuel c ps pps).2 = .iterationLimit →
      transTuple (solveLoop fuel c ps pps).1
        = predTuple (solveLoop fuel c ps pps).1
            ((solveLoop fuel c ps pps).1).on_points := by
  intro fuel
  induction fuel with
  | zero =>
      intro c ps pps hc h
      exact hc
  | succ fuel ih =>
      intro c ps pps hc h
      simp only [solveLoop] at h ⊢
      by_cases h1 : some (stepBody c).2 = pps
      · rw [if_pos h1] at h
        exact SolveStatus.noConfusion h
      · rw [if_neg h1] at h ⊢
        by_cases h2 : some (stepBody c).2 = ps
        · rw [if_pos h2] at h
          exact SolveStatus.noConfusion h
        · rw [if_neg h2] at h ⊢
          refine ih _ _ _ ?_ h
          rw [transTuple_updateStates, predTuple_updateStates, updateStates_on]

/-- A solve loop given at least one unit of fuel — as every call from
`update_circuit_state` is — that exits through the iteration cap leaves
every transistor's state equal to the gating predicate on the final
`on_points`: the last completed body wrote exactly that, and the cap
break at the loop top writes nothing afterwards. -/
lemma solveLoop_cap_succ :
    ∀ (fuel : Nat) (c : Circuit) (ps pps : Option Sig),
      (solveLoop (fuel + 1) c ps pps).2 = .iterationLimit →
      transTuple (solveLoop (fuel + 1) c ps pps).1
        = predTuple (solveLoop (fuel + 1) c ps pps).1
            ((solveLoop (fuel + 1) c ps pps).1).on_points := by
  intro fuel c ps pps h
  simp only [solveLoop] at h ⊢
  by_cases h1 : some (stepBody c).2 = pps
  · rw [if_pos h1] at h
    exact SolveStatus.noConfusion h
  · rw [if_neg h1] at h ⊢
    by_cases h2 : some (stepBody c).2 = ps
    · rw [if_pos h2] at h
      exact SolveStatus.noConfusion h
    · rw [if_neg h2] at h ⊢
      refine solveLoop_cap_inv _ _ _ _ ?_ h
      rw [transTuple_updateStates, predTuple_updateStates, updateStates_on]

/-! ### Claims C6 and C3 -/

/-- Claim C6: a tick always completes with exactly one of the three exit
conditions — convergence (the silent break), oscillation or the
iteration cap, the latter two signalled by their diagnostic prints,
which this embedding records as the returned `SolveStatus`; no exit
raises an exception (the embedded tick is a total function), and in
every case — abnormal ones included — the circuit is left in the
well-defined post-refresh state in which each wire's and each output
node's cached boolean agrees with the final `on_points`. -/
theorem claim_C6 (c : Circuit) :
    ((updateCircuitState c).2 = .converged ∨
      (updateCircuitState c).2 = .oscillating ∨
      (updateCircuitState c).2 = .iterationLimit) ∧
    (∀ w ∈ ((updateCircuitState c).1).wires,
      w.state = (decide (w.start_point ∈ ((updateCircuitState c).1).on_points)
        || decide (w.end_point ∈ ((updateCircuitState c).1).on_points))) ∧
    (∀ n ∈ ((updateCircuitState c).1).nodes, n.node_type = .output →
      n.state = decide (n.position ∈ ((updateCircuitState c).1).on_points)) :=
  ⟨status_cases _,
    finalRefresh_wires_spec (solveLoop 10001 (tickClocks c) none none).1,
    finalRefresh_nodes_spec (solveLoop 10001 (tickClocks c) none none).1⟩

/-- Witness for `claim_C6` on the converging circuit `witC`, naming the
concrete post-tick wire and output node. -/
theorem claim_C6_witness :
    ((updateCircuitState witC).2 = .converged ∨
      (updateCircuitState witC).2 = .oscillating ∨
      (updateCircuitState witC).2 = .iterationLimit) ∧
    (Wire.mk ((100 : Int), (0 : Int)) ((200 : Int), (0 : Int)) false).state
      = (decide (((100 : Int), (0 : Int)) ∈ ((updateCircuitState witC).1).on_points)
        || decide (((200 : Int), (0 : Int)) ∈ ((updateCircuitState witC).1).on_points)) ∧
    (Node.mk ((200 : Int), (0 : Int)) .output false).state
      = decide (((200 : Int), (0 : Int)) ∈ ((updateCircuitState witC).1).on_points) :=
  ⟨(claim_C6 witC).1,
    (claim_C6 witC).2.1 ⟨((100 : Int), (0 : Int)), ((200 : Int), (0 : Int)), false⟩
      (by decide),
    (claim_C6 witC).2.2 ⟨((200 : Int), (0 : Int)), .output, false⟩ (by decide) rfl⟩

/-- Claim C3, as stated, is false: on the feedback inverter `oscC` the
solve loop exits through the oscillation break with the p-type's cached
state `true`, while the gating predicate evaluated on the final
`on_points` gives `false` (the transistor states reflect the *other*
phase of the 2-cycle and are not refreshed after the loop). -/
theorem claim_C3_counterexample :
    (updateCircuitState oscC).2 = .oscillating ∧
      ((updateCircuitState oscC).1).transistors.map (·.state)
        ≠ predTuple ((updateCircuitState oscC).1)
            ((updateCircuitState oscC).1).on_points := by
  constructor
  · decide
  · intro h
    have h1 : ((updateCircuitState oscC).1).transistors.map (·.state) = [true] := by
      decide
    have h2 : predTuple ((updateCircuitState oscC).1)
        ((updateCircuitState oscC).1).on_points = [false] := by
      decide
    rw [h1, h2] at h
    exact absurd h (by decide)

set_option maxHeartbeats 1000000 in
/-- Claim C3 (amended): when the solve loop of `update_circuit_state`
terminates, every wire's state and every output node's state equal the
membership condition on the final `on_points` (the post-loop refresh
guarantees this for all three exit conditions); every transistor's
state equals its gating predicate evaluated on the final `on_points`
whenever the loop exited by convergence or by the iteration cap (the
last completed body wrote exactly that, and the cap break at the loop
top writes nothing afterwards) — only after an oscillation break does
it instead reflect the predicate at the other phase of the detected
2-cycle, because transistor states are not refreshed after the loop. -/
theorem claim_C3 (c : Circuit) :
    (∀ w ∈ ((updateCircuitState c).1).wires,
      w.state = (decide (w.start_point ∈ ((updateCircuitState c).1).on_points)
        || decide (w.end_point ∈ ((updateCircuitState c).1).on_points))) ∧
    (∀ n ∈ ((updateCircuitState c).1).nodes, n.node_type = .output →
      n.state = decide (n.position ∈ ((updateCircuitState c).1).on_points)) ∧
    ((updateCircuitState c).2 ≠ .oscillating →
      ∀ t ∈ ((updateCircuitState c).1).transistors,
        t.state = conductingAt t ((updateCircuitState c).1).on_points) := by
  refine ⟨finalRefresh_wires_spec (solveLoop 10001 (tickClocks c) none none).1,
    finalRefresh_nodes_spec (solveLoop 10001 (tickClocks c) none none).1, ?_⟩
  intro hst
  rcases status_cases (updateCircuitState c).2 with hs | hs | hs
  · have hex := solveLoop_exit 10001 (tickClocks c) none none
      (fun x hx => Option.noConfusion hx) (fun y hy => Option.noConfusion hy)
      (solveLoop 10001 (tickClocks c) none none).1
      (solveLoop 10001 (tickClocks c) none none).2 rfl
    have hconv := hex.1 hs
    exact map_eq_imp_mem hconv.2
  · exact absurd hs hst
  · have hs' : (solveLoop 10001 (tickClocks c) none none).2
        = SolveStatus.iterationLimit := hs
    rw [show (10001 : Nat) = 10000 + 1 from rfl] at hs'
    have hcap := solveLoop_cap_succ 10000 (tickClocks c) none none hs'
    exact map_eq_imp_mem hcap

/-! ### Claim C4 -/

/-- Claim C4, as stated, is false: `gateC`'s lone transistor is an
n-type, yet on the call after a converged tick (which left the gate
point `(0, 0)` in `on_points`) the iteration-0 conduction lookup — the
one `build_connectivity_graph` performs against `self.on_points` right
after the clock advancement — evaluates it as conducting. -/
theorem claim_C4_counterexample :
    gateC.transistors.map (·.transistor_type) = [TransistorType.nType] ∧
      ((updateCircuitState gateC).1).transistors.map
        (fun t => conductingAt t (tickClocks ((updateCircuitState gateC).1)).on_points)
      = [true] := by
  constructor
  · rfl
  · decide

/-- Claim C4 (amended): on iteration 0 of a call to
`update_circuit_state` the connectivity graph is built against the
`on_points` set carried over from the previous call (clock advancement
does not touch it); only when that carried-over set is empty — as on a
freshly constructed circuit — is every n-type evaluated as
non-conducting and every p-type as conducting on the first iteration. -/
theorem claim_C4 (c : Circuit) :
    buildConnectivityGraph (tickClocks c) = buildConnectivityGraphP c c.on_points ∧
      (c.on_points = ∅ → ∀ t ∈ c.transistors,
        conductingAt t (tickClocks c).on_points
          = decide (t.transistor_type = .pType)) := by
  refine ⟨rfl, ?_⟩
  intro h t _
  show conductingAt t c.on_points = _
  rw [h]
  cases htt : t.transistor_type with
  | nType => simp [conductingAt, htt]
  | pType => simp [conductingAt, htt]

/-- Witness for `claim_C4` on the fresh circuit `gateC` (whose
`on_points` is empty) and its n-type transistor. -/
theorem claim_C4_witness :
    buildConnectivityGraph (tickClocks gateC)
        = buildConnectivityGraphP gateC gateC.on_points ∧
      conductingAt ⟨((0 : Int), (0 : Int)), false, .nType, .horizontal⟩
          (tickClocks gateC).on_points
        = decide (TransistorType.nType = TransistorType.pType) :=
  ⟨(claim_C4 gateC).1,
    (claim_C4 gateC).2 rfl ⟨((0 : Int), (0 : Int)), false, .nType, .horizontal⟩
      (by decide)⟩

/-! ### The ring circuit: a tick that runs to the iteration cap -/

lemma solveLoop_step {n : Nat} {c c' : Circuit} {ps pps : Option Sig} {cur : Sig}
    (hs : stepBody c = (c', cur)) (h1 : some cur ≠ pps) (h2 : some cur ≠ ps) :
    solveLoop (n + 1) c ps pps
      = solveLoop n (updateStates c') (some cur) ps := by
  simp only [solveLoop, hs]
  rw [if_neg h1, if_neg h2]

lemma some_sig_ne (x y : Sig) (h : x.2 ≠ y.2) : (some x : Option Sig) ≠ some y :=
  fun he => h (congrArg Prod.snd (Option.some.inj he))

lemma ring_en1 : energizeF ringCirc ringCirc.on_points = rp1 :=
  Finset.Subset.antisymm (by decide) (by decide)

lemma ring_en2 : energizeF rs1c rs1c.on_points = rp2 :=
  Finset.Subset.antisymm (by decide) (by decide)

lemma ring_en3 : energizeF rs2c rs2c.on_points = rp3 :=
  Finset.Subset.antisymm (by decide) (by decide)

lemma ring_en4 : energizeF rs3c rs3c.on_points = rp1 :=
  Finset.Subset.antisymm (by decide) (by decide)

lemma ring_en5 : energizeF rs4c rs4c.on_points = rp2 :=
  Finset.Subset.antisymm (by decide) (by decide)

lemma ring_sb1 : stepBody ringCirc = ({ ringCirc with on_points := rp1 }, sigA) := by
  show ({ ringCirc with on_points := energizeF ringCirc ringCirc.on_points },
    (energizeF ringCirc ringCirc.on_points, transTuple ringCirc)) = _
  rw [ring_en1]
  rfl

lemma ring_sb2 : stepBody rs1c = ({ rs1c with on_points := rp2 }, sigB) := by
  show ({ rs1c with on_points := energizeF rs1c rs1c.on_points },
    (energizeF rs1c rs1c.on_points, transTuple rs1c)) = _
  rw [ring_en2]
  rfl

lemma ring_sb3 : stepBody rs2c = ({ rs2c with on_points := rp3 }, sigC) := by
  show ({ rs2c with on_points := energizeF rs2c rs2c.on_points },
    (energizeF rs2c rs2c.on_points, transTuple rs2c)) = _
  rw [ring_en3]
  rfl

lemma ring_sb4 : stepBody rs3c = ({ rs3c with on_points := rp1 }, sigA) := by
  show ({ rs3c with on_points := energizeF rs3c rs3c.on_points },
    (energizeF rs3c rs3c.on_points, transTuple rs3c)) = _
  rw [ring_en4]
  rfl

lemma ring_sb5 : stepBody rs4c = ({ rs4c with on_points := rp2 }, sigB) := by
  show ({ rs4c with on_points := energizeF rs4c rs4c.on_points },
    (energizeF rs4c rs4c.on_points, transTuple rs4c)) = _
  rw [ring_en5]
  rfl

lemma ring_ub1 : updateStates { ringCirc with on_points := rp1 } = rs1c :=
  Circuit.ext (by decide) (by decide) (by decide) rfl rfl

lemma ring_ub2 : updateStates { rs1c with on_points := rp2 } = rs2c :=
  Circuit.ext (by decide) (by decide) (by decide) rfl rfl

lemma ring_ub3 : updateStates { rs2c with on_points := rp3 } = rs3c :=
  Circuit.ext (by decide) (by decide) (by decide) rfl rfl

lemma ring_ub4 : updateStates { rs3c with on_points := rp1 } = rs4c :=
  Circuit.ext (by decide) (by decide) (by decide) rfl rfl

lemma ring_ub5 : updateStates { rs4c with on_points := rp2 } = rs2c :=
  Circuit.ext (by decide) (by decide) (by decide) rfl rfl

lemma ring_tA (n : Nat) :
    solveLoop (n + 1) ringCirc none none = solveLoop n rs1c (some sigA) none := by
  have h := solveLoop_step (n := n) ring_sb1
    (Option.some_ne_none _) (Option.some_ne_none _)
  rw [ring_ub1] at h
  exact h

lemma ring_tB (n : Nat) :
    solveLoop (n + 1) rs1c (some sigA) none
      = solveLoop n rs2c (some sigB) (some sigA) := by
  have h := solveLoop_step (n := n) ring_sb2
    (Option.some_ne_none _) (some_sig_ne sigB sigA (by decide))
  rw [ring_ub2] at h
  exact h

lemma ring_tC (n : Nat) :
    solveLoop (n + 1) rs2c (some sigB) (some sigA)
      = solveLoop n rs3c (some sigC) (some sigB) := by
  have h := solveLoop_step (n := n) ring_sb3
    (some_sig_ne sigC sigA (by decide)) (some_sig_ne sigC sigB (by decide))
  rw [ring_ub3] at h
  exact h

lemma ring_tD (n : Nat) :
    solveLoop (n + 1) rs3c (some sigC) (some sigB)
      = solveLoop n rs4c (some sigA) (some sigC) := by
  have h := solveLoop_step (n := n) ring_sb4
    (some_sig_ne sigA sigB (by decide)) (some_sig_ne sigA sigC (by decide))
  rw [ring_ub4] at h
  exact h

lemma ring_tE (n : Nat) :
    solveLoop (n + 1) rs4c (some sigA) (some sigC)
      = solveLoop n rs2c (some sigB) (some sigA) := by
  have h := solveLoop_step (n := n) ring_sb5
    (some_sig_ne sigB sigC (by decide)) (some_sig_ne sigB sigA (by decide))
  rw [ring_ub5] at h
  exact h

lemma ring_tF (n : Nat) :
    solveLoop (n + 1) rs2c none none = solveLoop n rs3c (some sigC) none := by
  have h := solveLoop_step (n := n) ring_sb3
    (Option.some_ne_none _) (Option.some_ne_none _)
  rw [ring_ub3] at h
  exact h

lemma ring_tG (n : Nat) :
    solveLoop (n + 1) rs3c (some sigC) none
      = solveLoop n rs4c (some sigA) (some sigC) := by
  have h := solveLoop_step (n := n) ring_sb4
    (Option.some_ne_none _) (some_sig_ne sigA sigC (by decide))
  rw [ring_ub4] at h
  exact h

lemma solveLoop_period3 {c : Circuit} {ps pps : Option Sig}
    (h : ∀ n, solveLoop (n + 3) c ps pps = solveLoop n c ps pps) :
    ∀ (k n : Nat), solveLoop (3 * k + n) c ps pps = solveLoop n c ps pps := by
  intro k
  induction k with
  | zero => intro n; norm_num
  | succ k ih =>
      intro n
      have e : 3 * (k + 1) + n = 3 * k + (n + 3) := by ring
      rw [e, ih (n + 3), h n]

lemma ring_cycle1 (n : Nat) :
    solveLoop (n + 3) rs2c (some sigB) (some sigA)
      = solveLoop n rs2c (some sigB) (some sigA) :=
  calc solveLoop (n + 3) rs2c (some sigB) (some sigA)
      = solveLoop (n + 2) rs3c (some sigC) (some sigB) := ring_tC (n + 2)
    _ = solveLoop (n + 1) rs4c (some sigA) (some sigC) := ring_tD (n + 1)
    _ = solveLoop n rs2c (some sigB) (some sigA) := ring_tE n

lemma ring_cycle2 (n : Nat) :
    solveLoop (n + 3) rs4c (some sigA) (some sigC)
      = solveLoop n rs4c (some sigA) (some sigC) :=
  calc solveLoop (n + 3) rs4c (some sigA) (some sigC)
      = solveLoop (n + 2) rs2c (some sigB) (some sigA) := ring_tE (n + 2)
    _ = solveLoop (n + 1) rs3c (some sigC) (some sigB) := ring_tC (n + 1)
    _ = solveLoop n rs4c (some sigA) (some sigC) := ring_tD n

lemma ring_fr1 : finalRefresh rs2c = rs2c :=
  Circuit.ext (by decide) (by decide) rfl rfl rfl

lemma ring_fr2 : finalRefresh rs4c = rs4c :=
  Circuit.ext (by decide) (by decide) rfl rfl rfl

lemma ring_tick1_loop :
    solveLoop 10001 ringCirc none none = (rs2c, .iterationLimit) := by
  have h1 : solveLoop 10001 ringCirc none none
      = solveLoop 9999 rs2c (some sigB) (some sigA) :=
    calc solveLoop 10001 ringCirc none none
        = solveLoop 10000 rs1c (some sigA) none := ring_tA 10000
      _ = solveLoop 9999 rs2c (some sigB) (some sigA) := ring_tB 9999
  have h2 := solveLoop_period3 ring_cycle1 3333 0
  have e : (9999 : Nat) = 3 * 3333 + 0 := by norm_num
  rw [h1, e, h2]
  rfl

lemma ring_tick2_loop :
    solveLoop 10001 rs2c none none = (rs4c, .iterationLimit) := by
  have h1 : solveLoop 10001 rs2c none none
      = solveLoop 9999 rs4c (some sigA) (some sigC) :=
    calc solveLoop 10001 rs2c none none
        = solveLoop 10000 rs3c (some sigC) none := ring_tF 10000
      _ = solveLoop 9999 rs4c (some sigA) (some sigC) := ring_tG 9999
  have h2 := solveLoop_period3 ring_cycle2 3333 0
  have e : (9999 : Nat) = 3 * 3333 + 0 := by norm_num
  rw [h1, e, h2]
  rfl

lemma ring_tick1 : updateCircuitState ringCirc = (rs2c, .iterationLimit) := by
  show (finalRefresh (solveLoop 10001 ringCirc none none).1,
    (solveLoop 10001 ringCirc none none).2) = _
  rw [ring_tick1_loop]
  show (finalRefresh rs2c, SolveStatus.iterationLimit) = _
  rw [ring_fr1]

lemma ring_tick2 : updateCircuitState rs2c = (rs4c, .iterationLimit) := by
  show (finalRefresh (solveLoop 10001 rs2c none none).1,
    (solveLoop 10001 rs2c none none).2) = _
  rw [ring_tick2_loop]
  show (finalRefresh rs4c, SolveStatus.iterationLimit) = _
  rw [ring_fr2]

/-! ### Claims C7 and the C5 witness -/

/-- Claim C7, as stated, is false: the clockless ring circuit's first
tick runs to the iteration cap and ends with `on_points = rp2`; calling
`update_circuit_state` again with no input changes runs to the cap
again but ends with `on_points = rp1` (the loop state is periodic with
period 3, and 10001 iterations advance the phase by 10001 mod 3 = 2). -/
theorem claim_C7_counterexample :
    ringCirc.clocks = [] ∧
      ((updateCircuitState ((updateCircuitState ringCirc).1)).1).on_points
        ≠ ((updateCircuitState ringCirc).1).on_points := by
  refine ⟨rfl, ?_⟩
  rw [ring_tick1]
  show ((updateCircuitState rs2c).1).on_points ≠ rs2c.on_points
  rw [ring_tick2]
  show rs4c.on_points ≠ rs2c.on_points
  intro h
  have h1 : ((0 : Int), (200 : Int)) ∈ rp1 := by decide
  rw [show rs4c.on_points = rp1 from rfl, show rs2c.on_points = rp2 from rfl] at h
  rw [h] at h1
  exact absurd h1 (by decide)

/-- Witness for `claim_C5` on the ring circuit, whose tick provably ends
in the iteration-limit condition after exactly 10001 loop bodies. -/
theorem claim_C5_witness :
    tickIterations ringCirc ≤ 10001 ∧ tickIterations ringCirc = 10001 :=
  ⟨(claim_C5 ringCirc).1,
    (claim_C5 ringCirc).2 (by rw [ring_tick1])⟩

/-- Witness for `claim_C3`: on the converging circuit `witC` it names
the concrete post-tick wire, output node and transistor, and on the
ring circuit — whose tick exits through the iteration cap — it names a
concrete transistor whose state still matches the gating predicate on
the final `on_points`. -/
theorem claim_C3_witness :
    (Wire.mk ((100 : Int), (0 : Int)) ((200 : Int), (0 : Int)) false).state
      = (decide (((100 : Int), (0 : Int)) ∈ ((updateCircuitState witC).1).on_points)
        || decide (((200 : Int), (0 : Int)) ∈ ((updateCircuitState witC).1).on_points)) ∧
    (Node.mk ((200 : Int), (0 : Int)) .output false).state
      = decide (((200 : Int), (0 : Int)) ∈ ((updateCircuitState witC).1).on_points) ∧
    ((Transistor.mk ((0 : Int), (0 : Int)) true .nType .horizontal).state
      = conductingAt ⟨((0 : Int), (0 : Int)), true, .nType, .horizontal⟩
          ((updateCircuitState witC).1).on_points) ∧
    ((Transistor.mk ((0 : Int), (0 : Int)) false .pType .horizontal).state
      = conductingAt ⟨((0 : Int), (0 : Int)), false, .pType, .horizontal⟩
          ((updateCircuitState ringCirc).1).on_points) :=
  ⟨(claim_C3 witC).1 ⟨((100 : Int), (0 : Int)), ((200 : Int), (0 : Int)), false⟩
      (by decide),
    (claim_C3 witC).2.1 ⟨((200 : Int), (0 : Int)), .output, false⟩ (by decide) rfl,
    (claim_C3 witC).2.2 (by decide)
      ⟨((0 : Int), (0 : Int)), true, .nType, .horizontal⟩ (by decide),
    (claim_C3 ringCirc).2.2 (by rw [ring_tick1]; decide)
      ⟨((0 : Int), (0 : Int)), false, .pType, .horizontal⟩
      (by rw [ring_tick1]; decide)⟩

/-! ### A tick from a settled state reproduces itself -/

lemma tickClocks_eq_self {c : Circuit} (h : c.clocks = []) : tickClocks c = c :=
  Circuit.ext rfl rfl rfl (by show c.clocks.map Clock.update = c.clocks; rw [h]; rfl) rfl

lemma solveLoop_stop_osc {n : Nat} {c c' : Circuit} {ps pps : Option Sig} {cur : Sig}
    (hs : stepBody c = (c', cur)) (h1 : some cur = pps) :
    solveLoop (n + 1) c ps pps = (c', .oscillating) := by
  simp only [solveLoop, hs]
  rw [if_pos h1]

lemma solveLoop_stop_conv {n : Nat} {c c' : Circuit} {ps pps : Option Sig} {cur : Sig}
    (hs : stepBody c = (c', cur)) (h1 : some cur ≠ pps) (h2 : some cur = ps) :
    solveLoop (n + 1) c ps pps = (c', .converged) := by
  simp only [solveLoop, hs]
  rw [if_neg h1, if_pos h2]

lemma transistorEdges_congr {ts : List Transistor} {P Q : Finset Point}
    (h : ts.map (fun t => conductingAt t P) = ts.map (fun t => conductingAt t Q)) :
    transistorEdges ts P = transistorEdges ts Q := by
  induction ts with
  | nil => rfl
  | cons a ts ih =>
      simp only [List.map_cons, List.cons.injEq] at h
      show (if conductingAt a P then _ else []) ++ transistorEdges ts P = _
      rw [h.1, ih h.2]
      rfl

lemma energizeF_congr_pred {c : Circuit} {P Q : Finset Point}
    (h : predTuple c P = predTuple c Q) : energizeF c P = energizeF c Q := by
  unfold energizeF buildConnectivityGraphP
  rw [transistorEdges_congr h]

lemma wires_refresh_id {l : List Wire} {P : Finset Point}
    (h : ∀ w ∈ l,
      w.state = (decide (w.start_point ∈ P) || decide (w.end_point ∈ P))) :
    (l.map fun w =>
      { w with state := decide (w.start_point ∈ P) || decide (w.end_point ∈ P) }) = l := by
  induction l with
  | nil => rfl
  | cons a l ih =>
      have hTail := ih fun w hw => h w (List.mem_cons_of_mem _ hw)
      have ha := h a (List.mem_cons_self _ _)
      cases a with
      | mk s e st =>
          have ha' : st = (decide (s ∈ P) || decide (e ∈ P)) := ha
          rw [List.map_cons, hTail]
          show Wire.mk s e (decide (s ∈ P) || decide (e ∈ P)) :: l = Wire.mk s e st :: l
          rw [ha']

lemma nodes_refresh_id {l : List Node} {P : Finset Point}
    (h : ∀ n ∈ l, n.node_type = .output → n.state = decide (n.position ∈ P)) :
    (l.map fun n => if n.node_type = .output then
      { n with state := decide (n.position ∈ P) } else n) = l := by
  induction l with
  | nil => rfl
  | cons a l ih =>
      have hTail := ih fun n hn => h n (List.mem_cons_of_mem _ hn)
      have ha := h a (List.mem_cons_self _ _)
      cases a with
      | mk pos ty st =>
          rw [List.map_cons, hTail]
          by_cases hty : ty = NodeType.output
          · have ha' : st = decide (pos ∈ P) := ha hty
            show (if (Node.mk pos ty st).node_type = .output then
              Node.mk pos ty (decide (pos ∈ P)) else Node.mk pos ty st) :: l
              = Node.mk pos ty st :: l
            rw [if_pos hty, ha']
          · show (if (Node.mk pos ty st).node_type = .output then
              Node.mk pos ty (decide (pos ∈ P)) else Node.mk pos ty st) :: l
              = Node.mk pos ty st :: l
            rw [if_neg hty]

lemma trans_set_id {l : List Transistor} {P : Finset Point}
    (h : ∀ t ∈ l, t.state = conductingAt t P) :
    (l.map fun t => { t with state := conductingAt t P }) = l := by
  induction l with
  | nil => rfl
  | cons a l ih =>
      have hTail := ih fun t ht => h t (List.mem_cons_of_mem _ ht)
      have ha := h a (List.mem_cons_self _ _)
      cases a with
      | mk pos st ty o =>
          have ha' : st = conductingAt (Transistor.mk pos st ty o) P := ha
          rw [List.map_cons, hTail]
          show Transistor.mk pos (conductingAt (Transistor.mk pos st ty o) P) ty o :: l
            = Transistor.mk pos st ty o :: l
          rw [← ha']

lemma nodes_refresh_refresh (l : List Node) (A B : Finset Point) :
    ((l.map fun n => if n.node_type = .output then
        { n with state := decide (n.position ∈ A) } else n).map
      fun n => if n.node_type = .output then
        { n with state := decide (n.position ∈ B) } else n)
    = l.map fun n => if n.node_type = .output then
        { n with state := decide (n.position ∈ B) } else n :=
  map_map_eq_of_comp _ _ _ fun n => by
    cases n with
    | mk pos ty st =>
        by_cases hty : ty = NodeType.output
        · simp [hty]
        · simp [hty]

lemma updateStates_set_updateStates (d : Circuit) (A B : Finset Point) :
    updateStates { updateStates { d with on_points := A } with on_points := B }
      = updateStates { d with on_points := B } := by
  refine Circuit.ext ?_ ?_ ?_ rfl rfl
  · exact nodes_refresh_refresh d.nodes A B
  · exact map_map_eq_of_comp _ _ _ fun w => rfl
  · exact map_map_eq_of_comp _ _ _ fun t => rfl

/-- A tick starting from a "settled" circuit — one whose `on_points` is
on a (possibly degenerate) 2-cycle of the build-and-propagate map, with
transistor states matching the other phase of the cycle and wire and
output-node states matching `on_points`, exactly the state every
detection exit of the solve loop leaves behind — terminates within four
iterations and reproduces the circuit unchanged. -/
lemma tick_settled {d : Circuit} (hclk : d.clocks = [])
    (hd1 : energizeF d (energizeF d d.on_points) = d.on_points)
    (hd2 : transTuple d = predTuple d (energizeF d d.on_points))
    (hw : ∀ w ∈ d.wires,
      w.state = (decide (w.start_point ∈ d.on_points) || decide (w.end_point ∈ d.on_points)))
    (hn : ∀ n ∈ d.nodes, n.node_type = .output →
      n.state = decide (n.position ∈ d.on_points)) :
    (updateCircuitState d).1 = d := by
  have htc : tickClocks d = d := tickClocks_eq_self hclk
  have hF1 : stepBody d = ({ d with on_points := energizeF d d.on_points },
      (energizeF d d.on_points, transTuple d)) := rfl
  have hEdQ : energizeF (updateStates { d with on_points := energizeF d d.on_points })
      (updateStates { d with on_points := energizeF d d.on_points }).on_points
      = d.on_points := by
    rw [updateStates_on, energizeF_updateStates, energizeF_set_on]
    exact hd1
  have hTdQ : transTuple (updateStates { d with on_points := energizeF d d.on_points })
      = predTuple d (energizeF d d.on_points) := by
    rw [transTuple_updateStates, predTuple_set_on]
  have hF2 : stepBody (updateStates { d with on_points := energizeF d d.on_points })
      = ({ updateStates { d with on_points := energizeF d d.on_points } with
            on_points := d.on_points },
          (d.on_points, predTuple d (energizeF d d.on_points))) := by
    show ({ updateStates { d with on_points := energizeF d d.on_points } with
        on_points := energizeF (updateStates { d with on_points := energizeF d d.on_points })
          (updateStates { d with on_points := energizeF d d.on_points }).on_points },
      (energizeF (updateStates { d with on_points := energizeF d d.on_points })
          (updateStates { d with on_points := energizeF d d.on_points }).on_points,
        transTuple (updateStates { d with on_points := energizeF d d.on_points }))) = _
    rw [hEdQ, hTdQ]
  have hEdP : energizeF (updateStates { d with on_points := d.on_points })
      (updateStates { d with on_points := d.on_points }).on_points
      = energizeF d d.on_points := by
    rw [updateStates_on, energizeF_updateStates, energizeF_set_on]
  have hTdP : transTuple (updateStates { d with on_points := d.on_points })
      = predTuple d d.on_points := by
    rw [transTuple_updateStates, predTuple_set_on]
  have hF3 : stepBody (updateStates { d with on_points := d.on_points })
      = ({ updateStates { d with on_points := d.on_points } with
            on_points := energizeF d d.on_points },
          (energizeF d d.on_points, predTuple d d.on_points)) := by
    show ({ updateStates { d with on_points := d.on_points } with
        on_points := energizeF (updateStates { d with on_points := d.on_points })
          (updateStates { d with on_points := d.on_points }).on_points },
      (energizeF (updateStates { d with on_points := d.on_points })
          (updateStates { d with on_points := d.on_points }).on_points,
        transTuple (updateStates { d with on_points := d.on_points }))) = _
    rw [hEdP, hTdP]
  have hfinal : finalRefresh { updateStates { d with on_points := energizeF d d.on_points }
      with on_points := d.on_points } = d := by
    refine Circuit.ext ?_ ?_ ?_ rfl rfl
    · exact (nodes_refresh_refresh d.nodes _ _).trans (nodes_refresh_id hn)
    · have hcomp := map_map_eq_of_comp d.wires
        (fun w : Wire => ({ w with
          state := (decide (w.start_point ∈ energizeF d d.on_points)
            || decide (w.end_point ∈ energizeF d d.on_points)) } : Wire))
        (fun w : Wire => ({ w with
          state := (decide (w.start_point ∈ d.on_points)
            || decide (w.end_point ∈ d.on_points)) } : Wire))
        (fun w => rfl)
      exact hcomp.trans (wires_refresh_id hw)
    · exact trans_set_id (map_eq_imp_mem hd2)
  have hstep1 : solveLoop 10001 d none none
      = solveLoop 10000 (updateStates { d with on_points := energizeF d d.on_points })
          (some (energizeF d d.on_points, transTuple d)) none :=
    solveLoop_step (n := 10000) hF1 (Option.some_ne_none _) (Option.some_ne_none _)
  show finalRefresh (solveLoop 10001 (tickClocks d) none none).1 = d
  rw [htc, hstep1]
  by_cases hPQ : d.on_points = energizeF d d.on_points
  · have hstop : solveLoop 10000 (updateStates { d with on_points := energizeF d d.on_points })
        (some (energizeF d d.on_points, transTuple d)) none
        = ({ updateStates { d with on_points := energizeF d d.on_points } with
              on_points := d.on_points }, .converged) := by
      refine solveLoop_stop_conv (n := 9999) hF2 (Option.some_ne_none _) ?_
      rw [hd2, ← hPQ]
    rw [hstop]
    exact hfinal
  · have hne1 : (some (d.on_points, predTuple d (energizeF d d.on_points)) : Option Sig)
        ≠ some (energizeF d d.on_points, transTuple d) :=
      fun he => hPQ (congrArg (fun s : Sig => s.1) (Option.some.inj he))
    have hstep2 := solveLoop_step (n := 9999) hF2 (Option.some_ne_none _) hne1
    rw [updateStates_set_updateStates] at hstep2
    have hneProd : predTuple d d.on_points ≠ transTuple d := by
      intro he
      have h3 := energizeF_congr_pred (he.trans hd2)
      exact hPQ (h3.trans hd1).symm
    have hne2 : (some (energizeF d d.on_points, predTuple d d.on_points) : Option Sig)
        ≠ some (energizeF d d.on_points, transTuple d) :=
      fun he => hneProd (congrArg (fun s : Sig => s.2) (Option.some.inj he))
    have hne3 : (some (energizeF d d.on_points, predTuple d d.on_points) : Option Sig)
        ≠ some (d.on_points, predTuple d (energizeF d d.on_points)) :=
      fun he => hPQ (congrArg (fun s : Sig => s.1) (Option.some.inj he)).symm
    have hstep3 := solveLoop_step (n := 9998) hF3 hne2 hne3
    rw [updateStates_set_updateStates] at hstep3
    have hstop : solveLoop 9998 (updateStates { d with on_points := energizeF d d.on_points })
        (some (energizeF d d.on_points, predTuple d d.on_points))
        (some (d.on_points, predTuple d (energizeF d d.on_points)))
        = ({ updateStates { d with on_points := energizeF d d.on_points } with
              on_points := d.on_points }, .oscillating) :=
      solveLoop_stop_osc (n := 9997) hF2 rfl
    rw [hstep2, hstep3, hstop]
    exact hfinal

/-! ### Claim C7 -/

/-- Claim C7 (amended): for every circuit with no clocks whose first
tick's solve loop terminates by convergence or oscillation detection —
i.e. with any status other than the iteration limit — a second call of
`update_circuit_state` with no input changes reproduces the first
call's result exactly: identical `on_points` and identical wire, node
and transistor states.  (The restriction to detection exits is forced:
a circuit whose loop state cycles with period 3 runs both ticks to the
iteration cap, and 10001 iterations advance the phase, so the second
tick ends elsewhere — see the counterexample.) -/
theorem claim_C7 (c : Circuit) (hclk : c.clocks = [])
    (hst : (updateCircuitState c).2 ≠ .iterationLimit) :
    (updateCircuitState ((updateCircuitState c).1)).1 = (updateCircuitState c).1 := by
  have hex := solveLoop_exit 10001 (tickClocks c) none none
    (fun x hx => Option.noConfusion hx) (fun y hy => Option.noConfusion hy)
    (solveLoop 10001 (tickClocks c) none none).1
    (solveLoop 10001 (tickClocks c) none none).2 rfl
  have hehd : energizeF (solveLoop 10001 (tickClocks c) none none).1
        (energizeF (solveLoop 10001 (tickClocks c) none none).1
          (solveLoop 10001 (tickClocks c) none none).1.on_points)
        = (solveLoop 10001 (tickClocks c) none none).1.on_points ∧
      transTuple (solveLoop 10001 (tickClocks c) none none).1
        = predTuple (solveLoop 10001 (tickClocks c) none none).1
            (energizeF (solveLoop 10001 (tickClocks c) none none).1
              (solveLoop 10001 (tickClocks c) none none).1.on_points) := by
    rcases status_cases (solveLoop 10001 (tickClocks c) none none).2 with hs | hs | hs
    · obtain ⟨h1, h2⟩ := hex.1 hs
      constructor
      · rw [← h1, ← h1]
      · rw [← h1]
        exact h2
    · exact hex.2 hs
    · exact absurd hs hst
  have hclkd : ((updateCircuitState c).1).clocks = [] := by
    show (finalRefresh (solveLoop 10001 (tickClocks c) none none).1).clocks = []
    rw [finalRefresh_clocks, solveLoop_clocks]
    show c.clocks.map Clock.update = []
    rw [hclk]
    rfl
  refine tick_settled hclkd ?_ ?_ ?_ ?_
  · show energizeF (finalRefresh (solveLoop 10001 (tickClocks c) none none).1)
        (energizeF (finalRefresh (solveLoop 10001 (tickClocks c) none none).1)
          (finalRefresh (solveLoop 10001 (tickClocks c) none none).1).on_points)
        = (finalRefresh (solveLoop 10001 (tickClocks c) none none).1).on_points
    rw [energizeF_finalRefresh, energizeF_finalRefresh, finalRefresh_on]
    exact hehd.1
  · show transTuple (finalRefresh (solveLoop 10001 (tickClocks c) none none).1)
        = predTuple (finalRefresh (solveLoop 10001 (tickClocks c) none none).1)
            (energizeF (finalRefresh (solveLoop 10001 (tickClocks c) none none).1)
              (finalRefresh (solveLoop 10001 (tickClocks c) none none).1).on_points)
    rw [transTuple_finalRefresh, predTuple_finalRefresh, energizeF_finalRefresh,
      finalRefresh_on]
    exact hehd.2
  · exact finalRefresh_wires_spec (solveLoop 10001 (tickClocks c) none none).1
  · exact finalRefresh_nodes_spec (solveLoop 10001 (tickClocks c) none none).1

/-- Witness for `claim_C7` on the clockless converging circuit `wireC`:
its second tick reproduces the first tick's result. -/
theorem claim_C7_witness :
    (updateCircuitState ((updateCircuitState wireC).1)).1 = (updateCircuitState wireC).1 :=
  claim_C7 wireC rfl (by decide)

end CircuitSim
